import Mathlib

/-!
A shallow embedding of the `storiesofTransformer` codemod
(packages/cli/src/commands/storiesof-to-csf style transform of the vitro
repository, found in the sources next to its example pages).  The transform
rewrites legacy `storiesOf('Title', module).add('name', render)` chains into
component-story-format modules: a default export with shared metadata plus one
named export per story.

The embedding models the fragment of the JavaScript AST the transform
manipulates (expressions and top-level statements), the jscodeshift query
behaviour the transform relies on (pre-order enumeration of matching nodes,
with the root path of a sub-collection excluded from `find` results), and the
full control flow of `storiesofTransformer` including its guards and
warnings, import pruning, serialization and the final textual cleanup pass.
-/

namespace Vitro

/-- JavaScript expressions, restricted to the shapes the transform inspects or
builds.  `raw tag ids` stands for an arbitrary opaque expression (such as a
story render arrow function) that contains no call expressions of its own;
`ids` records the identifier names occurring inside it, so that the
identifier scan of the file can see them.  `jsUndefined` models the JavaScript
`undefined` produced by out-of-range argument access. -/
inductive Expr where
  | ident (name : String)
  | str (s : String)
  | jsUndefined
  | raw (tag : Nat) (ids : List String)
  | obj (props : List (String × Expr))
  | arr (elems : List Expr)
  | call (callee : Expr) (args : List Expr)
  | member (receiver : Expr) (prop : String)

/-- Top-level statements of a module, restricted to the shapes the transform
inspects or builds.  `other ids` is an arbitrary opaque statement carrying the
identifier names occurring inside it. -/
inductive Stmt where
  | importDecl (source : String) (specifiers : List String)
  | exprStmt (e : Expr)
  | varDecl (name : String) (init : Expr)
  | exportDefault (e : Expr)
  | exportNamedConst (name : String) (init : Expr)
  | exportNamedDestr (names : List String) (init : Expr)
  | exportNamedFun (name : String)
  | exportSpecifiers (names : List String)
  | assign (target : Expr) (value : Expr)
  | other (ids : List String)

/-- The two diagnostic warnings `storiesofTransformer` can emit via `warn`,
each carrying the `initialStoriesOf.size()` count interpolated into the
message (source lines 278-284 and 353-360). -/
inductive Warning where
  | skipDefault (n : Nat)
  | multipleChains (n : Nat)
deriving DecidableEq

mutual
/-- All `CallExpression` nodes inside an expression, in pre-order (node before
its children, children left to right: callee before arguments).  This is the
order in which jscodeshift's `find(j.CallExpression)` yields matches; for a
fluent chain the outermost (textually last) call comes first, which is why the
source repeatedly reverses the collected lists. -/
def exprCalls : Expr → List Expr
  | .call c args => .call c args :: (exprCalls c ++ listCalls args)
  | .member r _ => exprCalls r
  | .obj props => propsCalls props
  | .arr es => listCalls es
  | .ident _ => []
  | .str _ => []
  | .jsUndefined => []
  | .raw _ _ => []

def listCalls : List Expr → List Expr
  | [] => []
  | e :: es => exprCalls e ++ listCalls es

def propsCalls : List (String × Expr) → List Expr
  | [] => []
  | p :: ps => exprCalls p.2 ++ propsCalls ps
end

mutual
/-- All `Identifier` node names inside an expression (member properties and
non-computed object keys are Identifier nodes in the AST, so
`root.find(j.Identifier)` sees them too). -/
def exprIdents : Expr → List String
  | .ident n => [n]
  | .str _ => []
  | .jsUndefined => []
  | .raw _ ids => ids
  | .obj props => propsIdents props
  | .arr es => listIdents es
  | .call c args => exprIdents c ++ listIdents args
  | .member r p => exprIdents r ++ [p]

def listIdents : List Expr → List String
  | [] => []
  | e :: es => exprIdents e ++ listIdents es

def propsIdents : List (String × Expr) → List String
  | [] => []
  | p :: ps => p.1 :: (exprIdents p.2 ++ propsIdents ps)
end

/-- The expressions contained directly in a top-level statement, the ones a
`root.find` traversal descends into. -/
def stmtExprs : Stmt → List Expr
  | .importDecl _ _ => []
  | .exprStmt e => [e]
  | .varDecl _ e => [e]
  | .exportDefault e => [e]
  | .exportNamedConst _ e => [e]
  | .exportNamedDestr _ e => [e]
  | .exportNamedFun _ => []
  | .exportSpecifiers _ => []
  | .assign t v => [t, v]
  | .other _ => []

/-- The `Identifier` names of a statement, as collected by
`root.find(j.Identifier)` (source lines 186-189): declared names, import and
export specifiers, and every identifier inside contained expressions. -/
def stmtIdents : Stmt → List String
  | .importDecl _ specs => specs
  | .exprStmt e => exprIdents e
  | .varDecl n e => n :: exprIdents e
  | .exportDefault e => exprIdents e
  | .exportNamedConst n e => n :: exprIdents e
  | .exportNamedDestr ns e => ns ++ exprIdents e
  | .exportNamedFun n => [n]
  | .exportSpecifiers ns => ns
  | .assign t v => exprIdents t ++ exprIdents v
  | .other ids => ids

/-- All identifier names occurring anywhere in the module. -/
def identifiersOfModule (m : List Stmt) : List String :=
  m.foldr (fun s acc => stmtIdents s ++ acc) []

/-- The call expressions of one statement in pre-order. -/
def stmtCalls (s : Stmt) : List Expr :=
  (stmtExprs s).foldr (fun e a => exprCalls e ++ a) []

/-- All call expressions of the module in document pre-order, the result set
of `root.find(j.CallExpression)`. -/
def moduleCalls (m : List Stmt) : List Expr :=
  m.foldr (fun s acc => stmtCalls s ++ acc) []

/-- The descendant calls of a call expression: jscodeshift's
`j(path).find(j.CallExpression)` silently skips the root path itself and
yields the matching descendants in pre-order. -/
def chainCalls : Expr → List Expr
  | .call c args => exprCalls c ++ listCalls args
  | e => exprCalls e

/-- Does the callee have `.name === 'storiesOf'`?  (An identifier callee; the
filter at source lines 146 and 273.) -/
def isStoriesOfName : Expr → Bool
  | .call (.ident n) _ => n == "storiesOf"
  | _ => false

/-- Is the expression a string literal?  (`arguments[0].type === 'StringLiteral'`.) -/
def isStrLit : Expr → Bool
  | .str _ => true
  | _ => false

/-- A `storiesOf` call with at least one argument whose first argument is a
string literal (source lines 145-151). -/
def isStoriesOfRoot : Expr → Bool
  | .call (.ident n) (a :: _) => n == "storiesOf" && isStrLit a
  | _ => false

/-- Filter `call.node.callee.property && call.node.callee.property.name === meth`:
the callee is a member expression with the given property name. -/
def calleePropIs (meth : String) : Expr → Bool
  | .call (.member _ p) _ => p == meth
  | _ => false

/-- The two `.add` filters of the source combined (lines 170-181 and 317-327):
callee property named `add`, at least two arguments, first argument a string
literal. -/
def isAddShaped : Expr → Bool
  | .call (.member _ p) (a :: _ :: _) => p == "add" && isStrLit a
  | _ => false

/-- Accessor `node.arguments[0]` (JavaScript yields `undefined` when absent). -/
def arg0 : Expr → Expr
  | .call _ (a :: _) => a
  | _ => .jsUndefined

/-- Accessor `node.arguments[0].value` for the string-literal first arguments the
filters guarantee. -/
def arg0StrVal (e : Expr) : String :=
  match arg0 e with
  | .str s => s
  | _ => ""

/-- Accessor `node.arguments[1]`. -/
def arg1 : Expr → Expr
  | .call _ (_ :: v :: _) => v
  | _ => .jsUndefined

/-- Accessor `node.arguments[2]`, present exactly when `arguments.length > 2`. -/
def arg2 : Expr → Option Expr
  | .call _ (_ :: _ :: p :: _) => some p
  | _ => none

/-- Accessor `node.properties` of an object literal.  The source spreads
`[...arguments[0].properties]` (line 115), which throws a `TypeError` when
the argument is not an object literal (including a missing argument, where
`arguments[0]` is `undefined`); that throw is modelled as `none`. -/
def objProps : Expr → Option (List (String × Expr))
  | .obj props => some props
  | _ => none

/-- Modelled from the spec: `sanitizeName` is imported from `../support`,
which is not among the sources; per the spec (section 4.3) it turns an
arbitrary display name into a syntactically valid identifier candidate by
stripping invalid characters and ensuring the result does not start with a
digit. -/
def sanitizeName (s : String) : String :=
  let cleaned := String.mk (s.toList.filter fun c => c.isAlphanum || c = '_')
  let cleaned := if cleaned = "" then "_" else cleaned
  match cleaned.toList with
  | c :: _ => if c.isDigit then "_" ++ cleaned else cleaned
  | [] => cleaned

/-- Fuel-bounded version of the collision loop
`while (identifiers.has(key)) key = '_' + key` (source lines 193-195). -/
def freshKeyFuel : Nat → List String → String → String
  | 0, _, key => key
  | fuel + 1, ids, key =>
      if key ∈ ids then freshKeyFuel fuel ids ("_" ++ key) else key

/-- The collision loop of source lines 193-195: prefix underscores until the
candidate is not in the identifier registry.  `ids.length + 1` rounds of fuel
always suffice (each colliding candidate is a distinct element of `ids`), as
proved below. -/
def freshKey (ids : List String) (key : String) : String :=
  freshKeyFuel (ids.length + 1) ids key

/-- The function `extractDecorators` (source lines 51-73).  Input is the per-story third
argument of an `.add` call; output is `(storyParams, storyDecorators)`. -/
def extractDecorators (params : Expr) : Option Expr × Option Expr :=
  match params with
  | .jsUndefined => (none, none)
  | .obj props =>
      match props.find? (fun p => p.1 == "decorators") with
      | none => (some (.obj props), none)
      | some d =>
          let rest := props.filter (fun p => p.1 != "decorators")
          if rest.length = 0 then (none, some d.2)
          else (some (.obj rest), some d.2)
  | e => (some e, none)

/-- The statements emitted for one story (source lines 201-257, with the key
already synthesized): the named export constant, then, if the story carries
per-story parameters or decorators, the `key.story = [parameters?,
decorators?]` assignment.  The computation of `name`/`storyNameFromExport`
at lines 197-199 is omitted: its result is only used by code that is
commented out in the source (lines 213-218). -/
def storyStmtsFor (key : String) (add : Expr) : List Stmt :=
  let exportStmt := Stmt.exportNamedConst key (arg1 add)
  let storyMeta : List (String × Expr) :=
    match arg2 add with
    | none => []
    | some p =>
        let sp := (extractDecorators p).1
        let sd := (extractDecorators p).2
        (match sp with
         | some v => [("parameters", v)]
         | none => []) ++
        (match sd with
         | some v => [("decorators", v)]
         | none => [])
  if storyMeta.length = 0 then [exportStmt]
  else [exportStmt, Stmt.assign (.member (.ident key) "story") (.obj storyMeta)]

/-- The `adds.forEach` loop of source lines 190-258: for each `.add` site in
source order, synthesize a fresh identifier, register it, and emit the story
statements. -/
def storyLoop : List Expr → List String → List Stmt
  | [], _ => []
  | add :: rest, ids =>
      let key := freshKey ids (sanitizeName (arg0StrVal add))
      storyStmtsFor key add ++ storyLoop rest (key :: ids)

/-- The `.addParameters` accumulation of source lines 104-118: for each
matched call in find order, its argument's properties are copied, reversed
and appended to the accumulator (appending head-first here is the same
concatenation in the same order); a non-object argument makes the spread at
line 115 throw, aborting the whole transform run (`none`). -/
def paramsAcc : List Expr → Option (List (String × Expr))
  | [] => some []
  | c :: rest =>
      match objProps (arg0 c) with
      | none => none
      | some ps =>
          match paramsAcc rest with
          | none => none
          | some acc => some (ps.reverse ++ acc)

/-- The function `convertToModuleExports` (source lines 75-268) up to the
splicing: the replacement statements for one chain rooted at the top-level
`.add` call `rootAdd`, or `none` when the run throws (non-object
`.addParameters` argument).  `fileIdents` is the `root.find(j.Identifier)`
scan of the whole module at the moment of conversion; `originalExports` the
pre-existing named exports.  Mirrors the push order of the source: default
exports first (from the `storiesOf` matches, in find order), then the
per-story statements with the `.add` matches re-reversed into source order
and the root `.add` appended last. -/
def convertToModuleExports (rootAdd : Expr) (fileIdents : List String)
    (originalExports : List String) : Option (List Stmt) :=
  let calls := chainCalls rootAdd
  let decorators := (calls.filter (calleePropIs "addDecorator")).map arg0
  let extraDecs : List (String × Expr) :=
    if 0 < decorators.length then [("decorators", Expr.arr decorators.reverse)]
    else []
  match paramsAcc (calls.filter (calleePropIs "addParameters")) with
  | none => none
  | some parameters =>
    let extraParams : List (String × Expr) :=
      if 0 < parameters.length then [("parameters", Expr.obj parameters.reverse)]
      else []
    let extraExcl : List (String × Expr) :=
      if 0 < originalExports.length then
        [("excludeStories", Expr.arr (originalExports.map Expr.str))]
      else []
    let extra := extraDecs ++ extraParams ++ extraExcl
    let defaults := (calls.filter isStoriesOfRoot).map fun c =>
        Stmt.exportDefault (Expr.obj (("title", Expr.str (arg0StrVal c)) :: extra))
    let adds := (calls.filter isAddShaped).reverse ++ [rootAdd]
    some (defaults ++ storyLoop adds fileIdents)

/-- The top-level chain dispatch filter (source lines 317-332): an `.add`
shaped call whose parent path is an `ExpressionStatement` or a
`VariableDeclarator`.  The initializer of `export const x = ...` (plain or
destructured) also sits directly under a `VariableDeclarator` in the real
AST, so those statements are matched by the dispatch as well. -/
def chainRootExpr : Stmt → Option Expr
  | .exprStmt e => if isAddShaped e then some e else none
  | .varDecl _ e => if isAddShaped e then some e else none
  | .exportNamedConst _ e => if isAddShaped e then some e else none
  | .exportNamedDestr _ e => if isAddShaped e then some e else none
  | _ => none

/-- Whether the `stmt` computed at source lines 260-263 (`path.parent` for an
expression statement, `path.parent.parent` for a declarator) is itself an
element of the top-level statement list, so that the
`insertAfter`/`remove` splice of lines 265-267 is an in-place statement-list
replacement.  For a chain bound by `export const`, that `stmt` is the
`VariableDeclaration` nested inside the `ExportNamedDeclaration` — not a
member of the program body — and the splice faults there, aborting the
file's transform run. -/
def spliceOk : Stmt → Bool
  | .exprStmt _ => true
  | .varDecl _ _ => true
  | _ => false

/-- The `forEach(convertToModuleExports)` of source lines 317-333: process
statements left to right; a matching chain statement is replaced in place by
its replacement statements (the source inserts the reversed statement list
after the chain statement and then removes it, which is the same in-place
replacement).  The identifier scan runs per conversion on the module as
mutated so far (`done` holds the already-processed front).  A conversion that
throws (non-object `.addParameters` argument), or a matched chain whose
enclosing declaration is not a statement-list element (`export const x =
chain`, where the splice faults), aborts the run: `none`. -/
def convertLoop (originalExports : List String) :
    List Stmt → List Stmt → Option (List Stmt)
  | done, [] => some done
  | done, s :: rest =>
      match chainRootExpr s with
      | some rootAdd =>
          let ids := identifiersOfModule (done ++ s :: rest)
          match convertToModuleExports rootAdd ids originalExports with
          | none => none
          | some conv =>
              if spliceOk s then convertLoop originalExports (done ++ conv) rest
              else none
      | none => convertLoop originalExports (done ++ [s]) rest

/-- The `storiesOf` import pruning (source lines 336-346): any `storiesOf`
specifier whose import source starts with `@storybook/` is removed;
when it is the only specifier of the statement the whole import statement is
removed instead.  The source iterates over matching specifier paths; for the
well-formed case of at most one `storiesOf` specifier per import (duplicate
bindings are invalid JavaScript) a single pass with `erase` is the same. -/
def strStartsWith : List Char → List Char → Bool
  | [], _ => true
  | _ :: _, [] => false
  | p :: ps, c :: cs => p = c && strStartsWith ps cs

/-- The test `source.value.startsWith('@storybook/')` (source line 340), evaluated on
the character lists (Lean's own `String.startsWith` does not reduce in the
kernel). -/
def startsWithStorybook (src : String) : Bool :=
  strStartsWith "@storybook/".toList src.toList

def pruneImportStmt : Stmt → Option Stmt
  | .importDecl src specs =>
      if "storiesOf" ∈ specs ∧ startsWithStorybook src then
        if 1 < specs.length then some (.importDecl src (specs.erase "storiesOf"))
        else none
      else some (.importDecl src specs)
  | s => some s

def pruneStoriesOfImports (m : List Stmt) : List Stmt :=
  m.filterMap pruneImportStmt

/-- Is the statement an `ExportDefaultDeclaration`? -/
def isDefaultExport : Stmt → Bool
  | .exportDefault _ => true
  | _ => false

/-- The number of `ExportDefaultDeclaration` statements
(`root.find(j.ExportDefaultDeclaration).size()`, source line 275). -/
def defaultExportCount (m : List Stmt) : Nat :=
  (m.filter isDefaultExport).length

/-- The count `initialStoriesOf.size()` (source lines 271-273): the number of calls in
the module whose callee name is `storiesOf`. -/
def storiesOfCount (m : List Stmt) : Nat :=
  ((moduleCalls m).filter isStoriesOfName).length

/-- The original named exports collected at source lines 289-313. -/
def originalExportsOf (m : List Stmt) : List String :=
  m.foldr
    (fun s acc =>
      (match s with
       | .exportNamedConst n _ => [n]
       | .exportNamedDestr ns _ => ns
       | .exportNamedFun n => [n]
       | .exportSpecifiers ns => ns
       | _ => []) ++ acc) []

mutual
/-- A simple serializer for expressions (one statement per line).  The
transform's correctness does not depend on formatting (spec section 6), so a
fixed rendering is used; what matters for the final textual cleanup pass is
that a leftover `const stories = storiesOf(` declaration renders with exactly
that prefix. -/
def renderExpr : Expr → String
  | .ident n => n
  | .str s => "'" ++ s ++ "'"
  | .jsUndefined => "undefined"
  | .raw tag _ => "«" ++ toString tag ++ "»"
  | .obj props => "\x7b " ++ renderProps props ++ " \x7d"
  | .arr es => "[" ++ renderList es ++ "]"
  | .call c args => renderExpr c ++ "(" ++ renderList args ++ ")"
  | .member r p => renderExpr r ++ "." ++ p

def renderList : List Expr → String
  | [] => ""
  | [e] => renderExpr e
  | e :: es => renderExpr e ++ ", " ++ renderList es

def renderProps : List (String × Expr) → String
  | [] => ""
  | [p] => p.1 ++ ": " ++ renderExpr p.2
  | p :: ps => p.1 ++ ": " ++ renderExpr p.2 ++ ", " ++ renderProps ps
end

/-- Rendering of one top-level statement, on a single line. -/
def stmtText : Stmt → String
  | .importDecl src specs =>
      "import \x7b " ++ String.intercalate ", " specs ++ " \x7d from '" ++ src ++ "'"
  | .exprStmt e => renderExpr e
  | .varDecl n e => "const " ++ n ++ " = " ++ renderExpr e
  | .exportDefault e => "export default " ++ renderExpr e
  | .exportNamedConst n e => "export const " ++ n ++ " = " ++ renderExpr e
  | .exportNamedDestr ns e =>
      "export const \x7b " ++ String.intercalate ", " ns ++ " \x7d = " ++ renderExpr e
  | .exportNamedFun n => "export function " ++ n ++ "() \x7b\x7d"
  | .exportSpecifiers ns =>
      "export \x7b " ++ String.intercalate ", " ns ++ " \x7d"
  | .assign t v => renderExpr t ++ " = " ++ renderExpr v
  | .other _ => ";"

/-- The serialized module: one statement per line (the abstraction of
`root.toSource`). -/
def renderModule (m : List Stmt) : String :=
  String.intercalate "\n" (m.map stmtText)

/-- Strip a pattern from the front of a character list, or fail. -/
def dropPat : List Char → List Char → Option (List Char)
  | [], l => some l
  | _ :: _, [] => none
  | p :: ps, c :: cs => if p = c then dropPat ps cs else none

/-- First occurrence of a pattern in a character list: `some (before, after)`
with the text before the match and the text after it, or `none`. -/
def findPat (pat : List Char) : List Char → Option (List Char × List Char)
  | [] =>
      match dropPat pat [] with
      | some r => some ([], r)
      | none => none
  | c :: cs =>
      match dropPat pat (c :: cs) with
      | some r => some ([], r)
      | none =>
          match findPat pat cs with
          | some (b, a) => some (c :: b, a)
          | none => none

/-- The regular-expression pattern of the final cleanup pass (source line
362), as a literal string: `const stories = storiesOf\(`. -/
def residuePat : String := "const stories = storiesOf("

/-- The final textual cleanup pass,
`source.replace(/const stories = storiesOf\(.*/, '')` (source line 362), at
the level of the serialized lines: `.replace` with a non-global regex deletes
only the first match, and `.*` extends the deletion to the end of that line,
so the first line containing the pattern is truncated at the match and every
other line is kept. -/
def stripResidue : List String → List String
  | [] => []
  | l :: rest =>
      match findPat residuePat.toList l.toList with
      | some (b, _) => String.mk b :: rest
      | none => l :: stripResidue rest

/-- Modelled from the spec: `prettify` is imported from `../support`, which is
not among the sources; it is the external pretty-printer of spec section 6,
on whose formatting choices correctness does not depend, so it is modelled as
the identity on text. -/
def prettify (s : String) : String := s

/-- The transform `storiesofTransformer` at the statement level, serialization abstracted:
the module the transform's mutations produce, together with the emitted
warnings.  Mirrors source lines 270-365: the default-export guard short
circuits everything (returning the module untouched and warning only when
`storiesOf` calls are present); otherwise every statement-level chain is
converted, the `storiesOf` import is pruned, and the multi-chain warning is
emitted when more than one `storiesOf` call was present initially; a run on
which the source throws (see `convertLoop`) is `none`. -/
def storiesofTransformerAst (m : List Stmt) :
    Option (List Stmt × List Warning) :=
  let initialStoriesOf := storiesOfCount m
  if 0 < defaultExportCount m then
    some (m,
      if 0 < initialStoriesOf then [Warning.skipDefault initialStoriesOf] else [])
  else
    match convertLoop (originalExportsOf m) [] m with
    | none => none
    | some converted =>
        let pruned := pruneStoriesOfImports converted
        if 1 < initialStoriesOf then
          some (pruned, [Warning.multipleChains initialStoriesOf])
        else some (pruned, [])

/-- The transform `storiesofTransformer` (source lines 47-365), returning the new source
text and the emitted warnings.  On the default-export guard path the
unmodified tree is serialized and returned (line 285).  Otherwise chains are
converted and the import pruned; with more than one initial `storiesOf` call
the mutated source is returned right after the warning (line 359), skipping
the textual cleanup and prettify; on the success path the serialized source
goes through the `const stories = storiesOf(` cleanup and `prettify`
(lines 362-364).  A run on which the source throws (see `convertLoop`) is
`none`. -/
def storiesofTransformer (m : List Stmt) : Option (String × List Warning) :=
  let initialStoriesOf := storiesOfCount m
  if 0 < defaultExportCount m then
    some (renderModule m,
      if 0 < initialStoriesOf then [Warning.skipDefault initialStoriesOf] else [])
  else
    match convertLoop (originalExportsOf m) [] m with
    | none => none
    | some converted =>
        let pruned := pruneStoriesOfImports converted
        if 1 < initialStoriesOf then
          some (renderModule pruned, [Warning.multipleChains initialStoriesOf])
        else
          some (prettify
            (String.intercalate "\n" (stripResidue (pruned.map stmtText))), [])

/-! ### Chain families

Apparatus for building concrete fluent chains
`storiesOf(title, module).step1()...stepN()` as input modules for the
theorems.  A `ChainStep` is one fluent call of the chain. -/

inductive ChainStep where
  | addStory (name : String) (render : Expr) (extra : Option Expr)
  | addDecorator (d : Expr)
  | addParameters (ps : List (String × Expr))

/-- The argument list of an `.add` call: display name, render expression,
optional per-story parameters object. -/
def addArgsFor : String × Expr × Option Expr → List Expr
  | (n, r, none) => [.str n, r]
  | (n, r, some y) => [.str n, r, y]

def stepMeth : ChainStep → String
  | .addStory _ _ _ => "add"
  | .addDecorator _ => "addDecorator"
  | .addParameters _ => "addParameters"

def stepArgs : ChainStep → List Expr
  | .addStory n r x => addArgsFor (n, r, x)
  | .addDecorator d => [d]
  | .addParameters ps => [.obj ps]

/-- Append one fluent call to the chain expression built so far. -/
def stepWrap (acc : Expr) (st : ChainStep) : Expr :=
  .call (.member acc (stepMeth st)) (stepArgs st)

/-- The chain root `storiesOf('title', module)`. -/
def storiesOfRootExpr (title : String) : Expr :=
  .call (.ident "storiesOf") [.str title, .ident "module"]

/-- The chain expression `storiesOf(title, module).s1()...sN()`. -/
def mkChain (title : String) (steps : List ChainStep) : Expr :=
  steps.foldl stepWrap (storiesOfRootExpr title)

/-- A step whose argument payloads contain no call expressions (so render
expressions, decorators and parameter values do not themselves contain
`.add`/`.addDecorator`/`storiesOf` calls that the queries would pick up). -/
def stepCallFree (st : ChainStep) : Bool :=
  (listCalls (stepArgs st)).isEmpty

def isAddStep : ChainStep → Bool
  | .addStory _ _ _ => true
  | _ => false

/-- The chain nodes paired with the receiver each is wrapped around, from the
innermost step outwards. -/
def prefixPairs (r : Expr) : List ChainStep → List (Expr × ChainStep)
  | [] => []
  | st :: rest => (r, st) :: prefixPairs (stepWrap r st) rest

/-- The `.addDecorator` payloads of the steps, in source order. -/
def decsOf (init : List ChainStep) : List Expr :=
  init.filterMap fun st =>
    match st with
    | .addDecorator d => some d
    | _ => none

/-- The payload of an `.addDecorator` step. -/
def decPayload : ChainStep → Expr
  | .addDecorator d => d
  | _ => .jsUndefined

/-- The payload property list of an `.addParameters` step. -/
def paramsPayload : ChainStep → List (String × Expr)
  | .addParameters ps => ps
  | _ => []

/-- The `.addParameters` payload property lists of the steps, in source
order. -/
def paramsListsOf (init : List ChainStep) : List (List (String × Expr)) :=
  init.filterMap fun st =>
    match st with
    | .addParameters ps => some ps
    | _ => none

/-- The `.addParameters` payload property lists of the steps, concatenated in
source order. -/
def paramsOf (init : List ChainStep) : List (String × Expr) :=
  (paramsListsOf init).flatten

/-- The story data of an `.addStory` step. -/
def storyData : ChainStep → Option (String × Expr × Option Expr)
  | .addStory n r x => some (n, r, x)
  | _ => none

/-- The `(name, render, extra)` triples of the `.add` steps, in source
order. -/
def storyDataOf (init : List ChainStep) : List (String × Expr × Option Expr) :=
  init.filterMap storyData

/-- Modelled from the spec (section 4.4): the shared-metadata properties the
assembler promises for the default export — decorators in `.addDecorator`
call order, parameters in left-to-right call-to-call order, then
`excludeStories` — each present only when non-empty. -/
def chainExtra (init : List ChainStep) (orig : List String) : List (String × Expr) :=
  (if 0 < (decsOf init).length then [("decorators", Expr.arr (decsOf init))]
   else []) ++
  (if 0 < (paramsOf init).length then [("parameters", Expr.obj (paramsOf init))]
   else []) ++
  (if 0 < orig.length then
    [("excludeStories", Expr.arr (orig.map Expr.str))]
   else [])

/-- Modelled from the spec (section 4.4): the per-story statements the
assembler promises, one story after another in original `.add` order, each
consuming a freshly synthesized and registered identifier. -/
def specStoryLoop : List (String × Expr × Option Expr) → List String → List Stmt
  | [], _ => []
  | d :: rest, ids =>
      let key := freshKey ids (sanitizeName d.1)
      storyStmtsFor key (.call .jsUndefined (addArgsFor d)) ++ specStoryLoop rest (key :: ids)

/-- The names bound by the emitted `export const` statements, in order. -/
def exportConstNames (l : List Stmt) : List String :=
  l.filterMap fun s =>
    match s with
    | .exportNamedConst n _ => some n
    | _ => none

/-- The synthesized keys for a list of display names, threading the registry
exactly as the `adds.forEach` loop does. -/
def keysFold : List String → List String → List String
  | [], _ => []
  | n :: rest, ids =>
      let k := freshKey ids (sanitizeName n)
      k :: keysFold rest (k :: ids)

/-! ### Concrete instances -/

/-- A complete one-story chain `storiesOf('Button', module).add('story', e0)`. -/
def chainExprA : Expr :=
  .call (.member (.call (.ident "storiesOf")
    [.str "Button", .ident "module"]) "add") [.str "story", .raw 0 []]

/-- A second independent chain `storiesOf('Other', module).add('story2', e1)`. -/
def chainExprB : Expr :=
  .call (.member (.call (.ident "storiesOf")
    [.str "Other", .ident "module"]) "add") [.str "story2", .raw 1 []]

/-- A module with two independent chain roots and no default export. -/
def twoChainModule : List Stmt :=
  [ .importDecl "@storybook/react" ["storiesOf"],
    .exprStmt chainExprA,
    .exprStmt chainExprB ]

/-- A module with a pre-existing default export and one chain root. -/
def conflictModule : List Stmt :=
  [ .exportDefault (.obj []),
    .exprStmt (.call (.member (.call (.ident "storiesOf")
        [.str "B", .ident "module"]) "add") [.str "s", .raw 0 []]) ]

/-- A split chain whose root is bound to `const chain = storiesOf(...)`: the
conversion of the `.add` statement leaves the declaration behind, and its
binding name is not `stories`. -/
def splitChainModule : List Stmt :=
  [ .importDecl "@storybook/react" ["storiesOf"],
    .varDecl "chain" (.call (.ident "storiesOf") [.str "T", .ident "module"]),
    .exprStmt (.call (.member (.ident "chain") "add") [.str "a", .raw 9 []]) ]

/-- Same split chain but with the conventional binding name `stories`, which
the textual pass does strip. -/
def splitStoriesModule : List Stmt :=
  [ .importDecl "@storybook/react" ["storiesOf"],
    .varDecl "stories" (.call (.ident "storiesOf") [.str "T", .ident "module"]),
    .exprStmt (.call (.member (.ident "stories") "add") [.str "a", .raw 9 []]) ]

/-- A three-story chain family instance: `.add('a', ...)`, `.add('b', ...)`,
`.add('c', ...)`. -/
def threeStoryInit : List ChainStep :=
  [ .addStory "a" (.raw 0 []) none, .addStory "b" (.raw 1 []) none ]

/-- The module holding the three-story chain after an import. -/
def threeStoryModule : List Stmt :=
  [ .importDecl "@storybook/react" ["storiesOf"],
    .exprStmt (mkChain "T" (threeStoryInit ++ [.addStory "c" (.raw 2 []) none])) ]

/-! ### Basic lemmas -/

theorem length_filter_lt_length_filter {α : Type} (l : List α) (p q : α → Bool)
    (hpq : ∀ x, p x = true → q x = true) (a : α) (ha : a ∈ l)
    (hqa : q a = true) (hpa : p a = false) :
    (l.filter p).length < (l.filter q).length := by
  induction l with
  | nil => cases ha
  | cons b t ih =>
      rcases List.mem_cons.mp ha with rfl | hat
      · have hle : (t.filter p).length ≤ (t.filter q).length :=
          (List.monotone_filter_right t hpq).length_le
        simp only [List.filter_cons, hpa, hqa]
        simpa using Nat.lt_succ_of_le hle
      · have hlt := ih hat
        by_cases hb : p b = true
        · simp only [List.filter_cons, hb, hpq b hb]
          simpa using hlt
        · have hb' : p b = false := by simpa using hb
          simp only [List.filter_cons, hb']
          cases hqb : q b <;> simp <;> omega

theorem freshKeyFuel_not_mem :
    ∀ (fuel : Nat) (ids : List String) (key : String),
      (ids.filter fun s => key.length ≤ s.length).length < fuel →
      freshKeyFuel fuel ids key ∉ ids := by
  intro fuel
  induction fuel with
  | zero => intro ids key h; exact absurd h (Nat.not_lt_zero _)
  | succ n ih =>
      intro ids key h
      rw [freshKeyFuel]
      by_cases hmem : key ∈ ids
      · simp only [hmem, if_true]
        apply ih
        have hstrict :
            (ids.filter fun s => decide (("_" ++ key).length ≤ s.length)).length <
            (ids.filter fun s => decide (key.length ≤ s.length)).length := by
          refine length_filter_lt_length_filter ids _ _ ?_ key hmem ?_ ?_
          · intro x hx
            simp only [decide_eq_true_eq, String.length_append] at hx ⊢
            have h1 : ("_" : String).length = 1 := rfl
            omega
          · simp
          · simp only [decide_eq_false_iff_not, String.length_append, Nat.not_le]
            have h1 : ("_" : String).length = 1 := rfl
            omega
        omega
      · simp [hmem]

/-- The collision loop always escapes the registry: the key returned by
`freshKey` is not among the identifiers it was asked to avoid. -/
theorem freshKey_not_mem (ids : List String) (key : String) :
    freshKey ids key ∉ ids := by
  apply freshKeyFuel_not_mem
  calc (ids.filter fun s => key.length ≤ s.length).length
      ≤ ids.length := List.length_filter_le _ _
    _ < ids.length + 1 := Nat.lt_succ_self _

theorem moduleCalls_cons (s : Stmt) (t : List Stmt) :
    moduleCalls (s :: t) = stmtCalls s ++ moduleCalls t := rfl

theorem moduleCalls_append (a b : List Stmt) :
    moduleCalls (a ++ b) = moduleCalls a ++ moduleCalls b := by
  induction a with
  | nil => rfl
  | cons s t ih =>
      simp only [List.cons_append, moduleCalls_cons, ih, List.append_assoc]

theorem identifiersOfModule_append (a b : List Stmt) :
    identifiersOfModule (a ++ b) =
      identifiersOfModule a ++ identifiersOfModule b := by
  induction a with
  | nil => rfl
  | cons s t ih =>
      simp only [identifiersOfModule, List.foldr_cons, List.cons_append] at *
      rw [ih, List.append_assoc]

theorem defaultExportCount_append (a b : List Stmt) :
    defaultExportCount (a ++ b) = defaultExportCount a + defaultExportCount b := by
  simp [defaultExportCount, List.filter_append]

theorem storiesOfCount_append (a b : List Stmt) :
    storiesOfCount (a ++ b) = storiesOfCount a + storiesOfCount b := by
  simp [storiesOfCount, moduleCalls_append, List.filter_append]

theorem pruneStoriesOfImports_append (a b : List Stmt) :
    pruneStoriesOfImports (a ++ b) =
      pruneStoriesOfImports a ++ pruneStoriesOfImports b := by
  simp [pruneStoriesOfImports, List.filterMap_append]

/-- The per-statement pruning action either keeps a statement with the same
expressions or drops a statement that carries none. -/
theorem stmtCalls_pruneImportStmt (s : Stmt) :
    (match pruneImportStmt s with
     | some s' => stmtCalls s'
     | none => []) = stmtCalls s := by
  cases s with
  | importDecl src specs =>
      by_cases h1 : "storiesOf" ∈ specs ∧ startsWithStorybook src
      · by_cases h2 : 1 < specs.length
        · simp [pruneImportStmt, h1, h2, stmtCalls, stmtExprs]
        · simp [pruneImportStmt, h1, h2, stmtCalls, stmtExprs]
      · simp [pruneImportStmt, h1]
  | _ => rfl

/-- Import pruning only inspects import statements; every statement it keeps
it keeps verbatim, and the statements it can drop carry no expressions, so
the call set of the module is unchanged. -/
theorem moduleCalls_pruneStoriesOfImports (m : List Stmt) :
    moduleCalls (pruneStoriesOfImports m) = moduleCalls m := by
  induction m with
  | nil => rfl
  | cons s t ih =>
      have hstep := stmtCalls_pruneImportStmt s
      simp only [pruneStoriesOfImports, List.filterMap_cons] at *
      cases hps : pruneImportStmt s with
      | none =>
          rw [hps] at hstep
          simp only [moduleCalls_cons, ← hstep, List.nil_append]
          exact ih
      | some s' =>
          rw [hps] at hstep
          simp only [moduleCalls_cons, ← hstep]
          rw [ih]

theorem listCalls_append (a b : List Expr) :
    listCalls (a ++ b) = listCalls a ++ listCalls b := by
  induction a with
  | nil => rfl
  | cons e es ih => simp [listCalls, ih]

theorem propsCalls_append (a b : List (String × Expr)) :
    propsCalls (a ++ b) = propsCalls a ++ propsCalls b := by
  induction a with
  | nil => rfl
  | cons p ps ih => simp [propsCalls, ih]

theorem storiesOfCount_pruneStoriesOfImports (m : List Stmt) :
    storiesOfCount (pruneStoriesOfImports m) = storiesOfCount m := by
  simp [storiesOfCount, moduleCalls_pruneStoriesOfImports]

/-- Pruning never removes or alters a default export. -/
theorem defaultExportCount_pruneStoriesOfImports (m : List Stmt) :
    defaultExportCount (pruneStoriesOfImports m) = defaultExportCount m := by
  induction m with
  | nil => rfl
  | cons s t ih =>
      simp only [pruneStoriesOfImports, List.filterMap_cons] at *
      cases s with
      | importDecl src specs =>
          by_cases h1 : "storiesOf" ∈ specs ∧ startsWithStorybook src
          · by_cases h2 : 1 < specs.length
            · simpa [pruneImportStmt, h1, h2, defaultExportCount,
                isDefaultExport, List.filter_cons] using ih
            · simpa [pruneImportStmt, h1, h2, defaultExportCount,
                isDefaultExport, List.filter_cons] using ih
          · simpa [pruneImportStmt, h1, defaultExportCount,
              isDefaultExport, List.filter_cons] using ih
      | exportDefault e =>
          simpa [pruneImportStmt, defaultExportCount, isDefaultExport,
            List.filter_cons] using ih
      | _ =>
          simpa [pruneImportStmt, defaultExportCount, isDefaultExport,
            List.filter_cons] using ih

/-! ### Chain query lemmas -/

theorem stepCallFree_iff (st : ChainStep) :
    stepCallFree st = true ↔ listCalls (stepArgs st) = [] := by
  simp [stepCallFree, List.isEmpty_iff]

theorem exprCalls_stepWrap (r : Expr) (st : ChainStep)
    (h : stepCallFree st = true) :
    exprCalls (stepWrap r st) = stepWrap r st :: exprCalls r := by
  have h' := (stepCallFree_iff st).mp h
  simp [stepWrap, exprCalls, h']

theorem chainCalls_stepWrap (c : Expr) (st : ChainStep)
    (h : stepCallFree st = true) :
    chainCalls (stepWrap c st) = exprCalls c := by
  have h' := (stepCallFree_iff st).mp h
  simp [stepWrap, chainCalls, exprCalls, h']

theorem exprCalls_foldl (steps : List ChainStep) :
    ∀ r, (∀ st ∈ steps, stepCallFree st = true) →
    exprCalls (steps.foldl stepWrap r) =
      ((prefixPairs r steps).map fun q => stepWrap q.1 q.2).reverse ++ exprCalls r := by
  induction steps with
  | nil => intro r _; simp [prefixPairs]
  | cons st rest ih =>
      intro r h
      have hst := h st (List.mem_cons_self _ _)
      have hrest : ∀ u ∈ rest, stepCallFree u = true := fun u hu =>
        h u (List.mem_cons_of_mem _ hu)
      simp only [List.foldl_cons]
      rw [ih (stepWrap r st) hrest, exprCalls_stepWrap r st hst]
      simp [prefixPairs, List.append_assoc]

theorem exprCalls_storiesOfRootExpr (title : String) :
    exprCalls (storiesOfRootExpr title) = [storiesOfRootExpr title] := rfl

/-- The descendant calls of a full chain whose outermost call is `last`: the
wrapped chain nodes from the outermost inwards, ending with the
`storiesOf` root call. -/
theorem chainCalls_mkChain (title : String) (init : List ChainStep)
    (last : ChainStep) (h : ∀ st ∈ init, stepCallFree st = true)
    (hl : stepCallFree last = true) :
    chainCalls (mkChain title (init ++ [last])) =
      ((prefixPairs (storiesOfRootExpr title) init).map
          fun q => stepWrap q.1 q.2).reverse ++ [storiesOfRootExpr title] := by
  have hfold : mkChain title (init ++ [last]) =
      stepWrap (mkChain title init) last := by
    simp [mkChain, List.foldl_append]
  rw [hfold, chainCalls_stepWrap _ _ hl]
  have := exprCalls_foldl init (storiesOfRootExpr title) h
  rw [mkChain, this, exprCalls_storiesOfRootExpr]

theorem isAddShaped_stepWrap (c : Expr) (st : ChainStep) :
    isAddShaped (stepWrap c st) = isAddStep st := by
  cases st with
  | addStory n r x => cases x <;> rfl
  | addDecorator d => rfl
  | addParameters ps => rfl

theorem calleePropIs_stepWrap (meth : String) (c : Expr) (st : ChainStep) :
    calleePropIs meth (stepWrap c st) = (stepMeth st == meth) := by
  cases st with
  | addStory n r x => cases x <;> rfl
  | addDecorator d => rfl
  | addParameters ps => rfl

theorem isStoriesOfRoot_stepWrap (c : Expr) (st : ChainStep) :
    isStoriesOfRoot (stepWrap c st) = false := by
  cases st with
  | addStory n r x => cases x <;> rfl
  | addDecorator d => rfl
  | addParameters ps => rfl

theorem isStoriesOfName_stepWrap (c : Expr) (st : ChainStep) :
    isStoriesOfName (stepWrap c st) = false := by
  cases st with
  | addStory n r x => cases x <;> rfl
  | addDecorator d => rfl
  | addParameters ps => rfl

theorem prefixPairs_snd (steps : List ChainStep) :
    ∀ r, (prefixPairs r steps).map (fun q => q.2) = steps := by
  induction steps with
  | nil => intro r; rfl
  | cons st rest ih => intro r; simp [prefixPairs, ih]

/-- Filtering the wrapped chain nodes by a property that depends only on the
step kind, then extracting data that depends only on the step, is the same as
filtering and mapping the steps themselves. -/
theorem pairs_extract {α : Type} (p : Expr → Bool) (f : Expr → α)
    (sel : ChainStep → Bool) (g : ChainStep → α)
    (hp : ∀ c st, p (stepWrap c st) = sel st)
    (hf : ∀ c st, sel st = true → f (stepWrap c st) = g st) :
    ∀ (steps : List ChainStep) (r : Expr),
      (((prefixPairs r steps).map fun q => stepWrap q.1 q.2).filter p).map f =
        (steps.filter sel).map g := by
  intro steps
  induction steps with
  | nil => intro r; rfl
  | cons st rest ih =>
      intro r
      simp only [prefixPairs, List.map_cons, List.filter_cons, hp]
      cases hsel : sel st with
      | true => simp [hf _ _ hsel, ih]
      | false => simp [ih]

theorem decsOf_eq_filter (init : List ChainStep) :
    (init.filter fun st => stepMeth st == "addDecorator").map decPayload =
      decsOf init := by
  induction init with
  | nil => rfl
  | cons st rest ih =>
      cases st with
      | addStory n r x =>
          have h : (stepMeth (ChainStep.addStory n r x) == "addDecorator") = false := rfl
          simpa [List.filter_cons, h, decsOf, List.filterMap_cons] using ih
      | addDecorator d =>
          have h : (stepMeth (ChainStep.addDecorator d) == "addDecorator") = true := rfl
          simpa [List.filter_cons, h, decsOf, List.filterMap_cons, decPayload] using ih
      | addParameters ps =>
          have h : (stepMeth (ChainStep.addParameters ps) == "addDecorator") = false := rfl
          simpa [List.filter_cons, h, decsOf, List.filterMap_cons] using ih

theorem paramsListsOf_eq_filter (init : List ChainStep) :
    (init.filter fun st => stepMeth st == "addParameters").map paramsPayload =
      paramsListsOf init := by
  induction init with
  | nil => rfl
  | cons st rest ih =>
      cases st with
      | addStory n r x =>
          have h : (stepMeth (ChainStep.addStory n r x) == "addParameters") = false := rfl
          simpa [List.filter_cons, h, paramsListsOf, List.filterMap_cons] using ih
      | addDecorator d =>
          have h : (stepMeth (ChainStep.addDecorator d) == "addParameters") = false := rfl
          simpa [List.filter_cons, h, paramsListsOf, List.filterMap_cons] using ih
      | addParameters ps =>
          have h : (stepMeth (ChainStep.addParameters ps) == "addParameters") = true := rfl
          simpa [List.filter_cons, h, paramsListsOf, List.filterMap_cons,
            paramsPayload] using ih

theorem foldl_rev_append {α : Type} (P : List (List α)) :
    ∀ a : List α,
      P.foldl (fun acc ps => acc ++ ps.reverse) a =
        a ++ (P.map List.reverse).flatten := by
  induction P with
  | nil => intro a; simp
  | cons ps P ih => intro a; simp [ih, List.append_assoc]

theorem flatten_map_reverse {α : Type} (P : List (List α)) :
    (P.map List.reverse).flatten = (P.reverse.flatten).reverse := by
  induction P with
  | nil => rfl
  | cons ps P ih =>
      simp [List.flatten_append, List.reverse_append, ih]

/-- The per-story statements depend only on the argument list of the `.add`
call, not on its receiver. -/
theorem storyStmtsFor_callee (key : String) (c c' : Expr) (args : List Expr) :
    storyStmtsFor key (.call c args) = storyStmtsFor key (.call c' args) := by
  cases args with
  | nil => rfl
  | cons a t =>
      cases t with
      | nil => rfl
      | cons b u =>
          cases u with
          | nil => rfl
          | cons d w => rfl

theorem arg0StrVal_call (c : Expr) (d : String × Expr × Option Expr) :
    arg0StrVal (.call c (addArgsFor d)) = d.1 := by
  obtain ⟨n, r, x⟩ := d
  cases x <;> rfl

/-- The `adds.forEach` loop over the re-reversed chain `.add` nodes followed
by the root node produces exactly the per-story statements of the spec
assembler, in original `.add` order, with the registry threaded through. -/
theorem storyLoop_spec (pairs : List (Expr × ChainStep)) :
    ∀ (tail : String × Expr × Option Expr) (ctail : Expr) (ids : List String),
      storyLoop
        (((pairs.map fun q => stepWrap q.1 q.2).filter isAddShaped) ++
          [.call ctail (addArgsFor tail)]) ids =
      specStoryLoop ((pairs.filterMap fun q => storyData q.2) ++ [tail]) ids := by
  induction pairs with
  | nil =>
      intro tail ctail ids
      simp only [List.map_nil, List.filter_nil, List.nil_append]
      show storyStmtsFor _ _ ++ storyLoop [] _ =
        storyStmtsFor _ _ ++ specStoryLoop [] _
      rw [arg0StrVal_call]
      rw [show Expr.call ctail (addArgsFor tail) =
        Expr.call ctail (addArgsFor tail) from rfl]
      rw [storyStmtsFor_callee _ ctail Expr.jsUndefined]
      rfl
  | cons q pairs ih =>
      intro tail ctail ids
      obtain ⟨c, st⟩ := q
      cases st with
      | addStory n r x =>
          have hsh : isAddShaped (stepWrap c (.addStory n r x)) = true := by
            rw [isAddShaped_stepWrap]; rfl
          simp only [List.map_cons, List.filter_cons, hsh, if_true,
            List.cons_append, List.filterMap_cons, storyData]
          show storyLoop (stepWrap c (.addStory n r x) :: _) ids = _
          have hnode : stepWrap c (.addStory n r x) =
              Expr.call (.member c "add") (addArgsFor (n, r, x)) := rfl
          rw [show (storyLoop (stepWrap c (.addStory n r x) :: ((pairs.map fun q =>
              stepWrap q.1 q.2).filter isAddShaped ++
              [Expr.call ctail (addArgsFor tail)])) ids) =
            storyStmtsFor
              (freshKey ids (sanitizeName (arg0StrVal (stepWrap c (.addStory n r x)))))
              (stepWrap c (.addStory n r x)) ++
            storyLoop ((pairs.map fun q => stepWrap q.1 q.2).filter isAddShaped ++
              [Expr.call ctail (addArgsFor tail)])
              (freshKey ids (sanitizeName (arg0StrVal (stepWrap c (.addStory n r x)))) ::
                ids) from rfl]
          rw [hnode, arg0StrVal_call, storyStmtsFor_callee _ (.member c "add") Expr.jsUndefined]
          rw [ih]
          rfl
      | addDecorator d =>
          have hsh : isAddShaped (stepWrap c (.addDecorator d)) = false := by
            rw [isAddShaped_stepWrap]; rfl
          simp only [List.map_cons, List.filter_cons, hsh, List.filterMap_cons,
            storyData]
          exact ih tail ctail ids
      | addParameters ps =>
          have hsh : isAddShaped (stepWrap c (.addParameters ps)) = false := by
            rw [isAddShaped_stepWrap]; rfl
          simp only [List.map_cons, List.filter_cons, hsh, List.filterMap_cons,
            storyData]
          exact ih tail ctail ids

theorem paramsAcc_map (L : List Expr) :
    ∀ P : List (List (String × Expr)),
      L.map (fun c => objProps (arg0 c)) = P.map some →
      paramsAcc L = some ((P.map List.reverse).flatten) := by
  induction L with
  | nil =>
      intro P hP
      cases P with
      | nil => rfl
      | cons p ps => simp at hP
  | cons c L ih =>
      intro P hP
      cases P with
      | nil => simp at hP
      | cons p ps =>
          simp only [List.map_cons, List.cons.injEq] at hP
          obtain ⟨h1, h2⟩ := hP
          simp only [paramsAcc, h1, ih ps h2, List.map_cons, List.flatten_cons]

/-- The heart of `convertToModuleExports` on a single well-shaped chain: the
emitted statements are one default export carrying the title and the
order-preserved shared metadata, followed by the per-story statements in
original `.add` order. -/
theorem convertToModuleExports_mkChain (title : String) (init : List ChainStep)
    (n : String) (r : Expr) (x : Option Expr) (ids orig : List String)
    (h : ∀ st ∈ init, stepCallFree st = true)
    (hl : stepCallFree (ChainStep.addStory n r x) = true) :
    convertToModuleExports (mkChain title (init ++ [ChainStep.addStory n r x]))
      ids orig =
      some (Stmt.exportDefault
          (.obj (("title", .str title) :: chainExtra init orig)) ::
        specStoryLoop (storyDataOf init ++ [(n, r, x)]) ids) := by
  have hcalls := chainCalls_mkChain title init (ChainStep.addStory n r x) h hl
  set N := (prefixPairs (storiesOfRootExpr title) init).map
    fun q => stepWrap q.1 q.2 with hN
  have hroot : mkChain title (init ++ [ChainStep.addStory n r x]) =
      Expr.call (.member (mkChain title init) "add") (addArgsFor (n, r, x)) := by
    rw [mkChain, List.foldl_append]
    rfl
  -- decorator extraction
  have hdec : ((N.reverse ++ [storiesOfRootExpr title]).filter
      (calleePropIs "addDecorator")).map arg0 = (decsOf init).reverse := by
    have h0 : calleePropIs "addDecorator" (storiesOfRootExpr title) = false := rfl
    rw [List.filter_append, List.filter_reverse]
    simp only [List.filter_cons, h0, List.filter_nil, List.append_nil,
      Bool.false_eq_true, if_false]
    rw [List.map_reverse]
    rw [pairs_extract (calleePropIs "addDecorator") arg0
      (fun st => stepMeth st == "addDecorator") decPayload
      (calleePropIs_stepWrap "addDecorator")
      (by
        intro c st hsel
        cases st with
        | addStory a b e => simp [stepMeth] at hsel
        | addDecorator d => rfl
        | addParameters ps => simp [stepMeth] at hsel)
      init (storiesOfRootExpr title)]
    rw [decsOf_eq_filter]
  -- parameter extraction
  have hbase : (N.filter (calleePropIs "addParameters")).map
      (fun c => objProps (arg0 c)) = (paramsListsOf init).map some := by
    rw [pairs_extract (calleePropIs "addParameters")
      (fun c => objProps (arg0 c))
      (fun st => stepMeth st == "addParameters")
      (fun st => some (paramsPayload st))
      (calleePropIs_stepWrap "addParameters")
      (by
        intro c st hsel
        cases st with
        | addStory a b e => simp [stepMeth] at hsel
        | addDecorator d => simp [stepMeth] at hsel
        | addParameters ps => rfl)
      init (storiesOfRootExpr title)]
    rw [← paramsListsOf_eq_filter, List.map_map]
    rfl
  have hpar : paramsAcc ((N.reverse ++ [storiesOfRootExpr title]).filter
      (calleePropIs "addParameters")) = some ((paramsOf init).reverse) := by
    have h0 : calleePropIs "addParameters" (storiesOfRootExpr title) = false := rfl
    rw [List.filter_append, List.filter_reverse]
    simp only [List.filter_cons, h0, List.filter_nil, List.append_nil,
      Bool.false_eq_true, if_false]
    have hmapped : ((N.filter (calleePropIs "addParameters")).reverse).map
        (fun c => objProps (arg0 c)) = ((paramsListsOf init).reverse).map some := by
      simpa using congrArg List.reverse hbase
    rw [paramsAcc_map _ ((paramsListsOf init).reverse) hmapped,
      flatten_map_reverse, List.reverse_reverse, paramsOf]
  -- the single default export
  have hdefs : (N.reverse ++ [storiesOfRootExpr title]).filter isStoriesOfRoot =
      [storiesOfRootExpr title] := by
    rw [List.filter_append]
    have h1 : N.reverse.filter isStoriesOfRoot = [] := by
      rw [List.filter_eq_nil_iff]
      intro e he
      rw [List.mem_reverse, hN] at he
      obtain ⟨q, _, rfl⟩ := List.mem_map.mp he
      simp [isStoriesOfRoot_stepWrap]
    have h2 : isStoriesOfRoot (storiesOfRootExpr title) = true := rfl
    simp [h1, h2]
  -- the re-reversed add sites
  have hadds : ((N.reverse ++ [storiesOfRootExpr title]).filter isAddShaped).reverse =
      N.filter isAddShaped := by
    have h0 : isAddShaped (storiesOfRootExpr title) = false := rfl
    rw [List.filter_append, List.filter_reverse]
    simp [h0]
  have hdata : (prefixPairs (storiesOfRootExpr title) init).filterMap
      (fun q => storyData q.2) = storyDataOf init := by
    have h1 := List.filterMap_map (fun q : Expr × ChainStep => q.2)
      storyData (prefixPairs (storiesOfRootExpr title) init)
    rw [prefixPairs_snd] at h1
    rw [show (fun q : Expr × ChainStep => storyData q.2) =
      (storyData ∘ fun q : Expr × ChainStep => q.2) from rfl, ← h1]
    rfl
  -- assemble
  simp only [convertToModuleExports, hcalls, hdec, hpar, hdefs, hadds]
  rw [hroot]
  rw [storyLoop_spec (prefixPairs (storiesOfRootExpr title) init) (n, r, x)
    (.member (mkChain title init) "add") ids]
  rw [hdata]
  simp only [List.length_reverse, List.reverse_reverse, List.map_cons,
    List.map_nil, List.singleton_append]
  rfl

/-! ### The conversion loop and the full transform on a single chain -/

theorem convertLoop_free (orig : List String) :
    ∀ (xs done : List Stmt), (∀ s ∈ xs, chainRootExpr s = none) →
      convertLoop orig done xs = some (done ++ xs) := by
  intro xs
  induction xs with
  | nil => intro done _; simp [convertLoop]
  | cons s rest ih =>
      intro done hfree
      have hs : chainRootExpr s = none := hfree s (List.mem_cons_self _ _)
      simp only [convertLoop, hs]
      rw [ih (done ++ [s]) fun u hu => hfree u (List.mem_cons_of_mem _ hu)]
      simp

theorem convertLoop_skip (orig : List String) (pre : List Stmt) :
    ∀ (done rest : List Stmt), (∀ u ∈ pre, chainRootExpr u = none) →
      convertLoop orig done (pre ++ rest) = convertLoop orig (done ++ pre) rest := by
  induction pre with
  | nil => intro done rest _; simp
  | cons u t ih =>
      intro done rest hfree
      have hu : chainRootExpr u = none := hfree u (List.mem_cons_self _ _)
      rw [List.cons_append]
      simp only [convertLoop, hu]
      rw [ih (done ++ [u]) rest fun v hv => hfree v (List.mem_cons_of_mem _ hv)]
      simp

theorem convertLoop_chain (orig : List String) (done : List Stmt) (s : Stmt)
    (rest : List Stmt) (root : Expr) (conv : List Stmt)
    (hs : chainRootExpr s = some root) (hsp : spliceOk s = true)
    (hconv : convertToModuleExports root
      (identifiersOfModule (done ++ s :: rest)) orig = some conv) :
    convertLoop orig done (s :: rest) =
      convertLoop orig (done ++ conv) rest := by
  simp only [convertLoop, hs, hconv, hsp, if_true]

theorem convertLoop_split (orig : List String) (pre : List Stmt) :
    ∀ (done : List Stmt) (s : Stmt) (post : List Stmt) (root : Expr)
      (conv : List Stmt),
      (∀ u ∈ pre, chainRootExpr u = none) → chainRootExpr s = some root →
      spliceOk s = true →
      convertToModuleExports root
        (identifiersOfModule (done ++ pre ++ s :: post)) orig = some conv →
      (∀ u ∈ post, chainRootExpr u = none) →
      convertLoop orig done (pre ++ s :: post) =
        some (done ++ pre ++ conv ++ post) := by
  induction pre with
  | nil =>
      intro done s post root conv _ hs hsp hconv hpost
      have hconv2 : convertToModuleExports root
          (identifiersOfModule (done ++ s :: post)) orig = some conv := by
        simpa using hconv
      rw [List.nil_append,
        convertLoop_chain orig done s post root conv hs hsp hconv2,
        convertLoop_free orig post _ hpost]
      simp [List.append_assoc]
  | cons u pre ih =>
      intro done s post root conv hpre hs hsp hconv hpost
      have hu : chainRootExpr u = none := hpre u (List.mem_cons_self _ _)
      have hconv2 : convertToModuleExports root
          (identifiersOfModule ((done ++ [u]) ++ pre ++ s :: post)) orig =
          some conv := by
        simpa [List.append_assoc] using hconv
      rw [List.cons_append]
      simp only [convertLoop, hu]
      rw [ih (done ++ [u]) s post root conv
        (fun v hv => hpre v (List.mem_cons_of_mem _ hv)) hs hsp hconv2 hpost]
      simp [List.append_assoc]

/-- The full statement-level transform on a module whose only chain statement
is `s` (rooted at `root`, with a successfully built conversion `conv` and a
statement-level splice target), with exactly one `storiesOf` call and no
default export: the chain statement is replaced in place by its conversion
and the `storiesOf` import is pruned, with no warning. -/
theorem transformAst_single_chain (pre post : List Stmt) (s : Stmt) (root : Expr)
    (conv : List Stmt)
    (hpre : ∀ u ∈ pre, chainRootExpr u = none)
    (hpost : ∀ u ∈ post, chainRootExpr u = none)
    (hs : chainRootExpr s = some root)
    (hsp : spliceOk s = true)
    (hconv : convertToModuleExports root (identifiersOfModule (pre ++ s :: post))
      (originalExportsOf (pre ++ s :: post)) = some conv)
    (hdef : defaultExportCount (pre ++ s :: post) = 0)
    (hcount : storiesOfCount (pre ++ s :: post) = 1) :
    storiesofTransformerAst (pre ++ s :: post) =
      some (pruneStoriesOfImports (pre ++ conv ++ post), []) := by
  simp only [storiesofTransformerAst, hdef, hcount]
  norm_num
  have hloop := convertLoop_split (originalExportsOf (pre ++ s :: post)) pre []
    s post root conv hpre hs hsp (by simpa using hconv) hpost
  rw [hloop]
  simp [List.append_assoc]

theorem pruneStoriesOfImports_storyStmtsFor (key : String) (add : Expr) :
    pruneStoriesOfImports (storyStmtsFor key add) = storyStmtsFor key add := by
  simp only [storyStmtsFor]
  split <;> rfl

theorem pruneStoriesOfImports_specStoryLoop
    (data : List (String × Expr × Option Expr)) :
    ∀ ids, pruneStoriesOfImports (specStoryLoop data ids) =
      specStoryLoop data ids := by
  induction data with
  | nil => intro ids; rfl
  | cons d rest ih =>
      intro ids
      simp only [specStoryLoop, pruneStoriesOfImports, List.filterMap_append]
      rw [show List.filterMap pruneImportStmt
          (storyStmtsFor (freshKey ids (sanitizeName d.1))
            (.call .jsUndefined (addArgsFor d))) =
        pruneStoriesOfImports (storyStmtsFor (freshKey ids (sanitizeName d.1))
          (.call .jsUndefined (addArgsFor d))) from rfl,
        pruneStoriesOfImports_storyStmtsFor]
      rw [show List.filterMap pruneImportStmt
          (specStoryLoop rest (freshKey ids (sanitizeName d.1) :: ids)) =
        pruneStoriesOfImports
          (specStoryLoop rest (freshKey ids (sanitizeName d.1) :: ids)) from rfl,
        ih]

theorem exportConstNames_storyStmtsFor (key : String) (add : Expr) :
    exportConstNames (storyStmtsFor key add) = [key] := by
  simp only [storyStmtsFor]
  split <;> rfl

theorem exportConstNames_append (a b : List Stmt) :
    exportConstNames (a ++ b) = exportConstNames a ++ exportConstNames b := by
  simp [exportConstNames, List.filterMap_append]

theorem exportConstNames_specStoryLoop (data : List (String × Expr × Option Expr)) :
    ∀ ids, exportConstNames (specStoryLoop data ids) =
      keysFold (data.map fun d => d.1) ids := by
  induction data with
  | nil => intro ids; rfl
  | cons d rest ih =>
      intro ids
      simp only [specStoryLoop, List.map_cons, keysFold, exportConstNames_append,
        exportConstNames_storyStmtsFor, ih]
      rfl

theorem exportConstNames_storyLoop (adds : List Expr) :
    ∀ ids, exportConstNames (storyLoop adds ids) =
      keysFold (adds.map arg0StrVal) ids := by
  induction adds with
  | nil => intro ids; rfl
  | cons add rest ih =>
      intro ids
      simp only [storyLoop, List.map_cons, keysFold, exportConstNames_append,
        exportConstNames_storyStmtsFor, ih]
      rfl

/-- The synthesized keys are pairwise distinct and avoid every identifier in
the registry they started from. -/
theorem keysFold_nodup_disjoint (names : List String) :
    ∀ ids, (keysFold names ids).Nodup ∧ ∀ k ∈ keysFold names ids, k ∉ ids := by
  induction names with
  | nil => intro ids; exact ⟨List.nodup_nil, by intro k hk; cases hk⟩
  | cons n rest ih =>
      intro ids
      obtain ⟨hnd, hdisj⟩ := ih (freshKey ids (sanitizeName n) :: ids)
      refine ⟨?_, ?_⟩
      · refine List.nodup_cons.mpr ⟨?_, hnd⟩
        intro hmem
        exact hdisj _ hmem (List.mem_cons_self _ _)
      · intro k hk
        rcases List.mem_cons.mp hk with rfl | hk'
        · exact freshKey_not_mem ids (sanitizeName n)
        · intro hkids
          exact hdisj k hk' (List.mem_cons_of_mem _ hkids)

/-! ### Call-freeness of the generated statements -/

theorem listCalls_eq_nil (L : List Expr) (h : ∀ e ∈ L, exprCalls e = []) :
    listCalls L = [] := by
  induction L with
  | nil => rfl
  | cons e es ih =>
      simp only [listCalls, h e (List.mem_cons_self _ _),
        ih fun u hu => h u (List.mem_cons_of_mem _ hu), List.append_nil]

theorem propsCalls_eq_nil (ps : List (String × Expr))
    (h : ∀ p ∈ ps, exprCalls p.2 = []) : propsCalls ps = [] := by
  induction ps with
  | nil => rfl
  | cons p rest ih =>
      simp only [propsCalls, h p (List.mem_cons_self _ _),
        ih fun u hu => h u (List.mem_cons_of_mem _ hu), List.append_nil]

theorem exprCalls_nil_of_mem_props (ps : List (String × Expr))
    (hps : propsCalls ps = []) : ∀ p ∈ ps, exprCalls p.2 = [] := by
  induction ps with
  | nil => intro p hp; cases hp
  | cons q rest ih =>
      intro p hp
      simp only [propsCalls, List.append_eq_nil] at hps
      rcases List.mem_cons.mp hp with rfl | hp'
      · exact hps.1
      · exact ih hps.2 p hp'

theorem propsCalls_filter_nil (ps : List (String × Expr)) (p : String × Expr → Bool)
    (hps : propsCalls ps = []) : propsCalls (ps.filter p) = [] :=
  propsCalls_eq_nil _ fun q hq =>
    exprCalls_nil_of_mem_props ps hps q (List.mem_of_mem_filter hq)

/-- The per-story statements of a call-free story carry no call
expressions. -/
theorem moduleCalls_storyStmtsFor (key : String) (d : String × Expr × Option Expr)
    (h : listCalls (addArgsFor d) = []) :
    moduleCalls (storyStmtsFor key (.call .jsUndefined (addArgsFor d))) = [] := by
  obtain ⟨n, r, x⟩ := d
  cases x with
  | none =>
      simp only [addArgsFor, listCalls, List.append_eq_nil] at h
      simp [storyStmtsFor, addArgsFor, arg2, arg1, moduleCalls, stmtCalls,
        stmtExprs, h.2.1]
  | some y =>
      simp only [addArgsFor, listCalls, List.append_eq_nil] at h
      obtain ⟨-, hr, hy, -⟩ := h
      have hmeta : ∀ sp ∈ (extractDecorators y).1, exprCalls sp = [] := by
        intro sp hsp
        cases y with
        | obj props =>
            have hprops : propsCalls props = [] := hy
            simp only [extractDecorators] at hsp
            cases hfind : props.find? (fun p => p.1 == "decorators") with
            | none =>
                rw [hfind] at hsp
                simp only [Option.mem_def, Option.some.injEq] at hsp
                rw [← hsp]
                exact hprops
            | some dd =>
                rw [hfind] at hsp
                by_cases hlen : (props.filter fun p => p.1 != "decorators").length = 0
                · simp [hlen] at hsp
                · simp only [hlen, if_false, Option.mem_def, Option.some.injEq] at hsp
                  rw [← hsp]
                  exact propsCalls_filter_nil props _ hprops
        | jsUndefined => simp [extractDecorators] at hsp
        | ident a => simp only [extractDecorators, Option.mem_def,
            Option.some.injEq] at hsp; rw [← hsp]; exact hy
        | str a => simp only [extractDecorators, Option.mem_def,
            Option.some.injEq] at hsp; rw [← hsp]; exact hy
        | raw a b => simp only [extractDecorators, Option.mem_def,
            Option.some.injEq] at hsp; rw [← hsp]; exact hy
        | arr es => simp only [extractDecorators, Option.mem_def,
            Option.some.injEq] at hsp; rw [← hsp]; exact hy
        | call c args => simp only [extractDecorators, Option.mem_def,
            Option.some.injEq] at hsp; rw [← hsp]; exact hy
        | member o pr => simp only [extractDecorators, Option.mem_def,
            Option.some.injEq] at hsp; rw [← hsp]; exact hy
      have hdeco : ∀ sd ∈ (extractDecorators y).2, exprCalls sd = [] := by
        intro sd hsd
        cases y with
        | obj props =>
            have hprops : propsCalls props = [] := hy
            simp only [extractDecorators] at hsd
            cases hfind : props.find? (fun p => p.1 == "decorators") with
            | none => rw [hfind] at hsd; simp at hsd
            | some dd =>
                have hddmem := List.mem_of_find?_eq_some hfind
                have hdd2 : exprCalls dd.2 = [] :=
                  exprCalls_nil_of_mem_props props hprops dd hddmem
                rw [hfind] at hsd
                by_cases hlen : (props.filter fun p => p.1 != "decorators").length = 0
                · simp only [hlen, if_true, Option.mem_def, Option.some.injEq] at hsd
                  rw [← hsd]; exact hdd2
                · simp only [hlen, if_false, Option.mem_def, Option.some.injEq] at hsd
                  rw [← hsd]; exact hdd2
        | jsUndefined => simp [extractDecorators] at hsd
        | ident a => simp [extractDecorators] at hsd
        | str a => simp [extractDecorators] at hsd
        | raw a b => simp [extractDecorators] at hsd
        | arr es => simp [extractDecorators] at hsd
        | call c args => simp [extractDecorators] at hsd
        | member o pr => simp [extractDecorators] at hsd
      simp only [storyStmtsFor, addArgsFor, arg2, arg1]
      cases hsp : (extractDecorators y).1 with
      | none =>
          cases hsd : (extractDecorators y).2 with
          | none => simp [moduleCalls, stmtCalls, stmtExprs, hr]
          | some sd =>
              have h2 := hdeco sd (by rw [hsd]; rfl)
              simp [moduleCalls, stmtCalls, stmtExprs, hr, exprCalls,
                propsCalls, h2]
      | some sp =>
          have h1 := hmeta sp (by rw [hsp]; rfl)
          cases hsd : (extractDecorators y).2 with
          | none =>
              simp [moduleCalls, stmtCalls, stmtExprs, hr, exprCalls,
                propsCalls, h1]
          | some sd =>
              have h2 := hdeco sd (by rw [hsd]; rfl)
              simp [moduleCalls, stmtCalls, stmtExprs, hr, exprCalls,
                propsCalls, h1, h2]

theorem moduleCalls_specStoryLoop (data : List (String × Expr × Option Expr)) :
    ∀ ids, (∀ d ∈ data, listCalls (addArgsFor d) = []) →
      moduleCalls (specStoryLoop data ids) = [] := by
  induction data with
  | nil => intro ids _; rfl
  | cons d rest ih =>
      intro ids h
      simp only [specStoryLoop, moduleCalls_append,
        moduleCalls_storyStmtsFor _ d (h d (List.mem_cons_self _ _)),
        ih _ fun u hu => h u (List.mem_cons_of_mem _ hu), List.append_nil]

theorem defaultExportCount_storyStmtsFor (key : String) (add : Expr) :
    defaultExportCount (storyStmtsFor key add) = 0 := by
  simp only [storyStmtsFor]
  split <;> rfl

theorem defaultExportCount_specStoryLoop (data : List (String × Expr × Option Expr)) :
    ∀ ids, defaultExportCount (specStoryLoop data ids) = 0 := by
  induction data with
  | nil => intro ids; rfl
  | cons d rest ih =>
      intro ids
      simp only [specStoryLoop, defaultExportCount_append,
        defaultExportCount_storyStmtsFor, ih, Nat.add_zero]

theorem propsCalls_flatten_nil (P : List (List (String × Expr)))
    (h : ∀ ps ∈ P, propsCalls ps = []) : propsCalls P.flatten = [] := by
  induction P with
  | nil => rfl
  | cons ps rest ih =>
      rw [List.flatten_cons, propsCalls_append, h ps (List.mem_cons_self _ _),
        ih fun u hu => h u (List.mem_cons_of_mem _ hu)]
      rfl

theorem exprCalls_nil_of_dec (init : List ChainStep)
    (h : ∀ st ∈ init, stepCallFree st = true) :
    ∀ d ∈ decsOf init, exprCalls d = [] := by
  intro d hd
  obtain ⟨st, hst, heq⟩ := List.mem_filterMap.mp hd
  cases st with
  | addStory a b c => cases heq
  | addParameters ps => cases heq
  | addDecorator d' =>
      obtain rfl : d' = d := by cases heq; rfl
      have := (stepCallFree_iff _).mp (h _ hst)
      simpa [stepArgs, listCalls] using this

theorem propsCalls_nil_of_params (init : List ChainStep)
    (h : ∀ st ∈ init, stepCallFree st = true) :
    ∀ ps ∈ paramsListsOf init, propsCalls ps = [] := by
  intro ps hps
  obtain ⟨st, hst, heq⟩ := List.mem_filterMap.mp hps
  cases st with
  | addStory a b c => cases heq
  | addDecorator d' => cases heq
  | addParameters ps' =>
      obtain rfl : ps' = ps := by cases heq; rfl
      have := (stepCallFree_iff _).mp (h _ hst)
      simpa [stepArgs, listCalls, exprCalls] using this

/-- The emitted default export carries no call expressions when the chain
payloads are call-free. -/
theorem stmtCalls_exportDefault_chainExtra (title : String)
    (init : List ChainStep) (orig : List String)
    (h : ∀ st ∈ init, stepCallFree st = true) :
    stmtCalls (Stmt.exportDefault
      (.obj (("title", .str title) :: chainExtra init orig))) = [] := by
  have hdecs : listCalls (decsOf init) = [] :=
    listCalls_eq_nil _ (exprCalls_nil_of_dec init h)
  have hpars : propsCalls (paramsOf init) = []  := by
    rw [paramsOf]
    exact propsCalls_flatten_nil _ (propsCalls_nil_of_params init h)
  have hexcl : listCalls (orig.map Expr.str) = [] := by
    apply listCalls_eq_nil
    intro e he
    obtain ⟨s, _, rfl⟩ := List.mem_map.mp he
    rfl
  simp only [stmtCalls, stmtExprs, List.foldr_cons, List.foldr_nil,
    List.append_nil, exprCalls, propsCalls, chainExtra]
  rw [propsCalls_append, propsCalls_append]
  by_cases h1 : 0 < (decsOf init).length <;>
    by_cases h2 : 0 < (paramsOf init).length <;>
    by_cases h3 : 0 < orig.length <;>
    simp [h1, h2, h3, propsCalls, exprCalls, hdecs, hpars, hexcl]

/-- The data of the `.add` steps of a call-free chain is call-free. -/
theorem addArgs_nil_of_storyData (init : List ChainStep)
    (h : ∀ st ∈ init, stepCallFree st = true) :
    ∀ d ∈ storyDataOf init, listCalls (addArgsFor d) = [] := by
  intro d hd
  obtain ⟨st, hst, heq⟩ := List.mem_filterMap.mp hd
  cases st with
  | addDecorator a => cases heq
  | addParameters ps => cases heq
  | addStory a b c =>
      obtain rfl : (a, b, c) = d := by cases heq; rfl
      have := (stepCallFree_iff _).mp (h _ hst)
      simpa [stepArgs] using this

/-- A one-statement chain module contains exactly one `storiesOf` call. -/
theorem storiesOfCount_chainStmt (title : String) (steps : List ChainStep)
    (h : ∀ st ∈ steps, stepCallFree st = true) :
    storiesOfCount [Stmt.exprStmt (mkChain title steps)] = 1 := by
  have hfold := exprCalls_foldl steps (storiesOfRootExpr title) h
  rw [storiesOfCount]
  have hmc : moduleCalls [Stmt.exprStmt (mkChain title steps)] =
      exprCalls (mkChain title steps) := by
    simp [moduleCalls, stmtCalls, stmtExprs]
  rw [hmc, mkChain, hfold, exprCalls_storiesOfRootExpr, List.filter_append]
  have h1 : (((prefixPairs (storiesOfRootExpr title) steps).map
      fun q => stepWrap q.1 q.2).reverse.filter isStoriesOfName) = [] := by
    rw [List.filter_eq_nil_iff]
    intro e he
    rw [List.mem_reverse] at he
    obtain ⟨q, _, rfl⟩ := List.mem_map.mp he
    simp [isStoriesOfName_stepWrap]
  have h2 : isStoriesOfName (storiesOfRootExpr title) = true := rfl
  simp [h1, h2]

/-- The expression of a chain statement built from a chain family. -/
theorem chainRootExpr_exprStmt_mkChain (title : String) (init : List ChainStep)
    (n : String) (r : Expr) (x : Option Expr) :
    chainRootExpr (.exprStmt (mkChain title (init ++ [.addStory n r x]))) =
      some (mkChain title (init ++ [.addStory n r x])) := by
  have hsh : isAddShaped (mkChain title (init ++ [ChainStep.addStory n r x])) = true := by
    rw [mkChain, List.foldl_append]
    simp only [List.foldl_cons, List.foldl_nil]
    rw [isAddShaped_stepWrap]
    rfl
  simp [chainRootExpr, hsh]

/-! ### convertLoop membership (for frame conditions) -/

theorem convertLoop_prefix (orig : List String) :
    ∀ (xs done res : List Stmt), convertLoop orig done xs = some res →
      ∃ rest, res = done ++ rest := by
  intro xs
  induction xs with
  | nil =>
      intro done res h
      simp only [convertLoop, Option.some.injEq] at h
      exact ⟨[], by simp [← h]⟩
  | cons s t ih =>
      intro done res h
      cases hs : chainRootExpr s with
      | some root =>
          simp only [convertLoop, hs] at h
          cases hc : convertToModuleExports root
              (identifiersOfModule (done ++ s :: t)) orig with
          | none => rw [hc] at h; simp at h
          | some conv =>
              rw [hc] at h
              by_cases hsp : spliceOk s = true
              · simp only [hsp, if_true] at h
                obtain ⟨r2, hr2⟩ := ih (done ++ conv) res h
                exact ⟨conv ++ r2, by rw [hr2]; simp⟩
              · simp [hsp] at h
      | none =>
          simp only [convertLoop, hs] at h
          obtain ⟨r2, hr2⟩ := ih (done ++ [s]) res h
          exact ⟨s :: r2, by rw [hr2]; simp⟩

theorem mem_convertLoop (orig : List String) (s : Stmt)
    (hs : chainRootExpr s = none) :
    ∀ (xs done res : List Stmt), convertLoop orig done xs = some res →
      s ∈ xs → s ∈ res := by
  intro xs
  induction xs with
  | nil => intro done res _ h; cases h
  | cons u t ih =>
      intro done res hres hmem
      rcases List.mem_cons.mp hmem with rfl | hmem'
      · simp only [convertLoop, hs] at hres
        obtain ⟨rest, hr⟩ := convertLoop_prefix orig t (done ++ [s]) res hres
        rw [hr]
        simp
      · cases hu : chainRootExpr u with
        | some root =>
            simp only [convertLoop, hu] at hres
            cases hc : convertToModuleExports root
                (identifiersOfModule (done ++ u :: t)) orig with
            | none => rw [hc] at hres; simp at hres
            | some conv =>
                rw [hc] at hres
                by_cases hsp : spliceOk u = true
                · simp only [hsp, if_true] at hres
                  exact ih _ res hres hmem'
                · simp [hsp] at hres
        | none =>
            simp only [convertLoop, hu] at hres
            exact ih _ res hres hmem'

/-! ### The final textual pass -/

theorem dropPat_self_append (p t : List Char) : dropPat p (p ++ t) = some t := by
  induction p with
  | nil => rfl
  | cons c cs ih => simp [dropPat, ih]

theorem findPat_of_lead (t : String) :
    findPat residuePat.toList (residuePat ++ t).toList =
      some ([], t.toList) := by
  have h1 : (residuePat ++ t).toList = residuePat.toList ++ t.toList :=
    String.data_append _ _
  have h2 : dropPat residuePat.toList (residuePat.toList ++ t.toList) =
      some t.toList := dropPat_self_append _ _
  have h3 : residuePat.toList ++ t.toList =
      'c' :: ("onst stories = storiesOf(".toList ++ t.toList) := rfl
  rw [h1, h3, findPat, ← h3, h2]

theorem stripResidue_no_match (lines : List String)
    (h : ∀ l ∈ lines, findPat residuePat.toList l.toList = none) :
    stripResidue lines = lines := by
  induction lines with
  | nil => rfl
  | cons l rest ih =>
      rw [stripResidue, h l (List.mem_cons_self _ _),
        ih fun u hu => h u (List.mem_cons_of_mem _ hu)]

theorem stripResidue_strikes (a : List String) (t : String) (b : List String)
    (ha : ∀ l ∈ a, findPat residuePat.toList l.toList = none) :
    stripResidue (a ++ (residuePat ++ t) :: b) = a ++ "" :: b := by
  induction a with
  | nil =>
      rw [List.nil_append, stripResidue, findPat_of_lead]
      rfl
  | cons l rest ih =>
      rw [List.cons_append, stripResidue, ha l (List.mem_cons_self _ _),
        ih fun u hu => ha u (List.mem_cons_of_mem _ hu)]
      rfl

/-! ### Claim theorems -/

/-- C2: for every module that contains both a pre-existing default export and
at least one chain root (`storiesOf` call), the transform emits the skip
warning and returns the original source unchanged — the statement-level
transform returns the module with no statement inserted, deleted, or
modified, and the text-level transform returns the serialized original
source. -/
theorem c2_conflict_guard (m : List Stmt)
    (hdef : 0 < defaultExportCount m) (hsoc : 0 < storiesOfCount m) :
    storiesofTransformerAst m =
      some (m, [Warning.skipDefault (storiesOfCount m)]) ∧
    storiesofTransformer m =
      some (renderModule m, [Warning.skipDefault (storiesOfCount m)]) := by
  constructor
  · simp [storiesofTransformerAst, hdef, hsoc]
  · simp [storiesofTransformer, hdef, hsoc]

/-- C2 (witness): the guard fires on the concrete conflicted module and the
module comes back untouched. -/
theorem c2_conflict_guard_witness :
    (0 < defaultExportCount conflictModule ∧ 0 < storiesOfCount conflictModule) ∧
    storiesofTransformerAst conflictModule =
      some (conflictModule,
        [Warning.skipDefault (storiesOfCount conflictModule)]) :=
  ⟨⟨by decide, by decide⟩,
    (c2_conflict_guard conflictModule (by decide) (by decide)).1⟩

/-- C5: for every module and every list of `.add` sites, the synthesized
story export identifiers of the `adds.forEach` loop are exactly the
underscore-disambiguated keys in story order, pairwise distinct, and distinct
from every identifier already occurring anywhere in the module; and the
collision loop itself always escapes the registry it is given (the final
candidate is registered, so later stories avoid it by construction of the
threaded registry). -/
theorem c5_identifier_uniqueness (m : List Stmt) (adds : List Expr) :
    exportConstNames (storyLoop adds (identifiersOfModule m)) =
      keysFold (adds.map arg0StrVal) (identifiersOfModule m) ∧
    (exportConstNames (storyLoop adds (identifiersOfModule m))).Nodup ∧
    (∀ k ∈ exportConstNames (storyLoop adds (identifiersOfModule m)),
      k ∉ identifiersOfModule m) ∧
    ∀ (ids : List String) (key : String), freshKey ids key ∉ ids := by
  refine ⟨exportConstNames_storyLoop adds _, ?_, ?_,
    fun ids key => freshKey_not_mem ids key⟩
  · rw [exportConstNames_storyLoop]
    exact (keysFold_nodup_disjoint _ _).1
  · rw [exportConstNames_storyLoop]
    exact (keysFold_nodup_disjoint _ _).2

/-- C6: for an `.add` site whose third argument is an object literal with a
`decorators` property, the emitted attachment carries that property's value
as the story's decorators and the remaining fields as the story's parameters,
omitting the parameters field entirely when nothing but `decorators` was
present; and a story with no third argument gets no attachment statement at
all. -/
theorem c6_story_metadata_split (key : String) (add : Expr)
    (props : List (String × Expr)) (d : String × Expr)
    (h2 : arg2 add = some (.obj props))
    (hfind : props.find? (fun p => p.1 == "decorators") = some d) :
    storyStmtsFor key add =
      [Stmt.exportNamedConst key (arg1 add),
       Stmt.assign (.member (.ident key) "story")
         (.obj
           ((if (props.filter fun p => p.1 != "decorators").length = 0 then []
             else [("parameters",
               Expr.obj (props.filter fun p => p.1 != "decorators"))]) ++
            [("decorators", d.2)]))] ∧
    ∀ add', arg2 add' = none →
      storyStmtsFor key add' = [Stmt.exportNamedConst key (arg1 add')] := by
  constructor
  · simp only [storyStmtsFor, h2, extractDecorators, hfind]
    by_cases hlen : (props.filter fun p => p.1 != "decorators").length = 0
    · simp [hlen]
    · simp [hlen]
  · intro add' h'
    simp [storyStmtsFor, h']

/-- C6 (witness): the split at a concrete `.add('s', render, { decorators:
[...], b: 'v' })` site. -/
theorem c6_story_metadata_split_witness :
    arg2 (.call .jsUndefined [.str "s", .raw 0 [],
        .obj [("decorators", .arr []), ("b", .str "v")]]) =
      some (.obj [("decorators", .arr []), ("b", .str "v")]) ∧
    storyStmtsFor "s" (.call .jsUndefined [.str "s", .raw 0 [],
        .obj [("decorators", .arr []), ("b", .str "v")]]) =
      [Stmt.exportNamedConst "s" (arg1 (.call .jsUndefined [.str "s", .raw 0 [],
          .obj [("decorators", .arr []), ("b", .str "v")]])),
       Stmt.assign (.member (.ident "s") "story")
         (.obj
           ((if (([("decorators", Expr.arr []), ("b", Expr.str "v")].filter
                fun p => p.1 != "decorators").length = 0) then []
             else [("parameters",
               Expr.obj ([("decorators", Expr.arr []), ("b", Expr.str "v")].filter
                 fun p => p.1 != "decorators"))]) ++
            [("decorators", Expr.arr [])]))] :=
  ⟨rfl,
    (c6_story_metadata_split "s" (.call .jsUndefined [.str "s", .raw 0 [],
        .obj [("decorators", .arr []), ("b", .str "v")]])
      [("decorators", .arr []), ("b", .str "v")] ("decorators", .arr [])
      rfl rfl).1⟩

/-- C7: the `storiesOf` import is pruned on every non-guarded run (in
particular after every successful rewrite): an import statement from an
`@storybook/`-prefixed module whose specifiers contain `storiesOf` loses the
whole statement when `storiesOf` was its only specifier, and loses only the
`storiesOf` specifier (keeping the rest of the statement) otherwise; the
transform's output on the non-guarded path is exactly the pruned converted
module when the conversion loop succeeds, and the fault when it throws. -/
theorem c7_import_pruning (pre post : List Stmt) (src : String)
    (specs : List String) (m : List Stmt)
    (hsrc : startsWithStorybook src = true) (hmem : "storiesOf" ∈ specs)
    (hdef : defaultExportCount m = 0) (hcount : storiesOfCount m ≤ 1) :
    pruneStoriesOfImports (pre ++ Stmt.importDecl src specs :: post) =
      pruneStoriesOfImports pre ++
        (if 1 < specs.length then
          [Stmt.importDecl src (specs.erase "storiesOf")]
         else []) ++
        pruneStoriesOfImports post ∧
    storiesofTransformerAst m =
      (convertLoop (originalExportsOf m) [] m).map
        (fun conv => (pruneStoriesOfImports conv, [])) := by
  constructor
  · have hsplit : pre ++ Stmt.importDecl src specs :: post =
        pre ++ [Stmt.importDecl src specs] ++ post := by simp
    rw [hsplit, pruneStoriesOfImports_append, pruneStoriesOfImports_append]
    have hmid : pruneStoriesOfImports [Stmt.importDecl src specs] =
        (if 1 < specs.length then
          [Stmt.importDecl src (specs.erase "storiesOf")]
         else []) := by
      by_cases hlen : 1 < specs.length
      · simp [pruneStoriesOfImports, pruneImportStmt, hsrc, hmem, hlen]
      · simp [pruneStoriesOfImports, pruneImportStmt, hsrc, hmem, hlen]
    rw [hmid]
  · have hne : ¬ 1 < storiesOfCount m := by omega
    have hne' : ¬ 0 < defaultExportCount m := by omega
    simp only [storiesofTransformerAst, hne', if_false]
    cases h : convertLoop (originalExportsOf m) [] m with
    | none => rfl
    | some conv => simp [hne]

/-- C7 (witness): an import with a second specifier keeps that specifier,
and the non-guarded transform output is the pruned conversion, at a concrete
module. -/
theorem c7_import_pruning_witness :
    (startsWithStorybook "@storybook/react" = true ∧
      "storiesOf" ∈ ["storiesOf", "addDecorator"] ∧
      defaultExportCount splitChainModule = 0 ∧
      storiesOfCount splitChainModule ≤ 1) ∧
    pruneStoriesOfImports
        ([] ++ Stmt.importDecl "@storybook/react" ["storiesOf", "addDecorator"] ::
          [Stmt.exportNamedFun "f"]) =
      pruneStoriesOfImports [] ++
        (if 1 < (["storiesOf", "addDecorator"] : List String).length then
          [Stmt.importDecl "@storybook/react"
            (["storiesOf", "addDecorator"].erase "storiesOf")]
         else []) ++
        pruneStoriesOfImports [Stmt.exportNamedFun "f"] :=
  ⟨⟨by decide, by decide, by decide, by decide⟩,
    (c7_import_pruning [] [Stmt.exportNamedFun "f"] "@storybook/react"
      ["storiesOf", "addDecorator"] splitChainModule
      (by decide) (by decide) (by decide) (by decide)).1⟩

/-- C10 (implicit): a `storiesOf` import specifier is pruned only when its
module source starts with `@storybook/`; an import of `storiesOf` from any
other module is kept in place verbatim by the pruning pass, and survives into
the transform output even on a non-guarded (rewriting) run. -/
theorem c10_foreign_import_untouched (pre post : List Stmt) (src : String)
    (specs : List String) (m : List Stmt)
    (hsrc : startsWithStorybook src = false)
    (hdef : defaultExportCount m = 0) (hcount : storiesOfCount m ≤ 1)
    (hin : Stmt.importDecl src specs ∈ m) :
    pruneStoriesOfImports (pre ++ Stmt.importDecl src specs :: post) =
      pruneStoriesOfImports pre ++ Stmt.importDecl src specs ::
        pruneStoriesOfImports post ∧
    ∀ out, storiesofTransformerAst m = some out →
      Stmt.importDecl src specs ∈ out.1 := by
  have hprune : pruneImportStmt (Stmt.importDecl src specs) =
      some (Stmt.importDecl src specs) := by
    simp [pruneImportStmt, hsrc]
  constructor
  · have hsplit : pre ++ Stmt.importDecl src specs :: post =
        pre ++ [Stmt.importDecl src specs] ++ post := by simp
    rw [hsplit, pruneStoriesOfImports_append, pruneStoriesOfImports_append]
    have hmid : pruneStoriesOfImports [Stmt.importDecl src specs] =
        [Stmt.importDecl src specs] := by
      simp [pruneStoriesOfImports, hprune]
    rw [hmid]
    simp
  · intro out hout
    have hne : ¬ 1 < storiesOfCount m := by omega
    have hne' : ¬ 0 < defaultExportCount m := by omega
    simp only [storiesofTransformerAst, hne', if_false] at hout
    cases h : convertLoop (originalExportsOf m) [] m with
    | none => rw [h] at hout; simp at hout
    | some conv =>
        rw [h] at hout
        simp only [hne, if_false] at hout
        have hmem2 : Stmt.importDecl src specs ∈ conv :=
          mem_convertLoop (originalExportsOf m) (Stmt.importDecl src specs) rfl
            m [] conv h hin
        have hout2 : (pruneStoriesOfImports conv, ([] : List Warning)) = out :=
          Option.some.inj hout
        rw [← hout2]
        exact List.mem_filterMap.mpr ⟨_, hmem2, hprune⟩

/-- C10 (witness): a `storiesOf` import from `some-other-lib` is kept
verbatim through pruning and appears in the transform output of a rewriting
run. -/
theorem c10_foreign_import_untouched_witness :
    (startsWithStorybook "some-other-lib" = false ∧
      defaultExportCount
        (Stmt.importDecl "some-other-lib" ["storiesOf"] :: splitChainModule) = 0) ∧
    Stmt.importDecl "some-other-lib" ["storiesOf"] ∈
      ([Stmt.importDecl "some-other-lib" ["storiesOf"],
        Stmt.varDecl "chain" (.call (.ident "storiesOf") [.str "T", .ident "module"]),
        Stmt.exportNamedConst "a" (.raw 9 [])] : List Stmt) ∧
    storiesofTransformerAst
        (Stmt.importDecl "some-other-lib" ["storiesOf"] :: splitChainModule) =
      some ([Stmt.importDecl "some-other-lib" ["storiesOf"],
        Stmt.varDecl "chain" (.call (.ident "storiesOf") [.str "T", .ident "module"]),
        Stmt.exportNamedConst "a" (.raw 9 [])], []) :=
  ⟨⟨by decide, by decide⟩,
    (c10_foreign_import_untouched [] [] "some-other-lib" ["storiesOf"]
      (Stmt.importDecl "some-other-lib" ["storiesOf"] :: splitChainModule)
      (by decide) (by decide) (by decide)
      (List.mem_cons_self _ _)).2
      ([Stmt.importDecl "some-other-lib" ["storiesOf"],
        Stmt.varDecl "chain" (.call (.ident "storiesOf") [.str "T", .ident "module"]),
        Stmt.exportNamedConst "a" (.raw 9 [])], []) rfl,
    rfl⟩

/-- C3: for a successfully rewritten single-chain module, the emitted named
story exports appear in the output in the original `.add` order (their
synthesized identifiers are the in-order key fold), inserted at the original
chain-root statement's position right after the default export, and the
chain-root statement itself is removed. -/
theorem c3_story_order_and_position (pre post : List Stmt) (title : String)
    (init : List ChainStep) (n : String) (r : Expr) (x : Option Expr)
    (M : List Stmt)
    (hM : M = pre ++
      Stmt.exprStmt (mkChain title (init ++ [.addStory n r x])) :: post)
    (hpre : ∀ u ∈ pre, chainRootExpr u = none)
    (hpost : ∀ u ∈ post, chainRootExpr u = none)
    (hinit : ∀ st ∈ init, stepCallFree st = true)
    (hlast : stepCallFree (ChainStep.addStory n r x) = true)
    (hdef : defaultExportCount M = 0)
    (hcount : storiesOfCount M = 1) :
    storiesofTransformerAst M =
      some (pruneStoriesOfImports pre ++
        (Stmt.exportDefault (.obj (("title", .str title) ::
            chainExtra init (originalExportsOf M))) ::
          specStoryLoop (storyDataOf init ++ [(n, r, x)])
            (identifiersOfModule M)) ++
        pruneStoriesOfImports post, []) ∧
    exportConstNames
        (specStoryLoop (storyDataOf init ++ [(n, r, x)])
          (identifiersOfModule M)) =
      keysFold ((storyDataOf init ++ [(n, r, x)]).map fun d => d.1)
        (identifiersOfModule M) := by
  subst hM
  have hpr : ∀ (e : Expr) (data : List (String × Expr × Option Expr))
      (ids : List String),
      pruneStoriesOfImports (Stmt.exportDefault e :: specStoryLoop data ids) =
        Stmt.exportDefault e :: specStoryLoop data ids := by
    intro e data ids
    rw [pruneStoriesOfImports, List.filterMap_cons]
    rw [show pruneImportStmt (Stmt.exportDefault e) =
      some (Stmt.exportDefault e) from rfl]
    rw [show List.filterMap pruneImportStmt (specStoryLoop data ids) =
      pruneStoriesOfImports (specStoryLoop data ids) from rfl,
      pruneStoriesOfImports_specStoryLoop]
  have hs := chainRootExpr_exprStmt_mkChain title init n r x
  have htr := transformAst_single_chain pre post _ _ _ hpre hpost hs rfl
    (convertToModuleExports_mkChain title init n r x _ _ hinit hlast) hdef hcount
  rw [htr]
  constructor
  · rw [pruneStoriesOfImports_append, pruneStoriesOfImports_append, hpr]
  · exact exportConstNames_specStoryLoop _ _

/-- C3 (witness): the three-story chain `a`, `b`, `c` is rewritten in place,
after the pruned import, into a default export followed by the three story
exports in source order. -/
theorem c3_story_order_and_position_witness :
    (∀ u ∈ [Stmt.importDecl "@storybook/react" ["storiesOf"]],
        chainRootExpr u = none) ∧
    storiesofTransformerAst threeStoryModule =
      some (pruneStoriesOfImports
          [Stmt.importDecl "@storybook/react" ["storiesOf"]] ++
        (Stmt.exportDefault (.obj (("title", .str "T") ::
            chainExtra threeStoryInit (originalExportsOf threeStoryModule))) ::
          specStoryLoop
            (storyDataOf threeStoryInit ++ [("c", .raw 2 [], none)])
            (identifiersOfModule threeStoryModule)) ++
        pruneStoriesOfImports [], []) :=
  ⟨by
    intro u hu
    rcases List.mem_singleton.mp hu with rfl
    rfl,
   (c3_story_order_and_position
      [Stmt.importDecl "@storybook/react" ["storiesOf"]] [] "T"
      threeStoryInit "c" (.raw 2 []) none threeStoryModule rfl
      (by
        intro u hu
        rcases List.mem_singleton.mp hu with rfl
        rfl)
      (by intro u hu; cases hu)
      (by decide) (by decide) (by decide) (by decide)).1⟩

/-- C4: for a successfully converted chain carrying `addDecorator(d1)` then
`addDecorator(d2)` and `addParameters(ps1)` then `addParameters(ps2)`, the
emitted default export lists the decorators as `[d1, d2]` — not `[d2, d1]` —
and the parameters fields in left-to-right, call-to-call order `ps1 ++ ps2`,
despite the query mechanism enumerating the chain calls in reverse document
order. -/
theorem c4_metadata_order (title : String) (d1 d2 : Expr)
    (ps1 ps2 : List (String × Expr)) (n : String) (r : Expr) (x : Option Expr)
    (ids : List String)
    (hd1 : exprCalls d1 = []) (hd2 : exprCalls d2 = [])
    (hp1 : propsCalls ps1 = []) (hp2 : propsCalls ps2 = [])
    (hlast : stepCallFree (ChainStep.addStory n r x) = true)
    (hps : 0 < (ps1 ++ ps2).length) :
    convertToModuleExports
      (mkChain title
        ([ChainStep.addDecorator d1, ChainStep.addDecorator d2,
          ChainStep.addParameters ps1, ChainStep.addParameters ps2] ++
          [ChainStep.addStory n r x])) ids [] =
      some (Stmt.exportDefault (.obj
        [("title", .str title), ("decorators", .arr [d1, d2]),
         ("parameters", .obj (ps1 ++ ps2))]) ::
        specStoryLoop [(n, r, x)] ids) := by
  have hinit : ∀ st ∈ [ChainStep.addDecorator d1, ChainStep.addDecorator d2,
      ChainStep.addParameters ps1, ChainStep.addParameters ps2],
      stepCallFree st = true := by
    intro st hst
    simp only [List.mem_cons, List.not_mem_nil, or_false] at hst
    rcases hst with rfl | rfl | rfl | rfl
    · simpa [stepCallFree, stepArgs, listCalls, List.isEmpty_iff] using hd1
    · simpa [stepCallFree, stepArgs, listCalls, List.isEmpty_iff] using hd2
    · simpa [stepCallFree, stepArgs, listCalls, exprCalls, List.isEmpty_iff]
        using hp1
    · simpa [stepCallFree, stepArgs, listCalls, exprCalls, List.isEmpty_iff]
        using hp2
  rw [convertToModuleExports_mkChain title _ n r x ids [] hinit hlast]
  have hdecs : decsOf [ChainStep.addDecorator d1, ChainStep.addDecorator d2,
      ChainStep.addParameters ps1, ChainStep.addParameters ps2] = [d1, d2] := rfl
  have hparams : paramsOf [ChainStep.addDecorator d1, ChainStep.addDecorator d2,
      ChainStep.addParameters ps1, ChainStep.addParameters ps2] =
      ps1 ++ ps2 := by
    simp [paramsOf, paramsListsOf, List.filterMap_cons]
  have hdata : storyDataOf [ChainStep.addDecorator d1, ChainStep.addDecorator d2,
      ChainStep.addParameters ps1, ChainStep.addParameters ps2] = [] := rfl
  rw [show chainExtra [ChainStep.addDecorator d1, ChainStep.addDecorator d2,
      ChainStep.addParameters ps1, ChainStep.addParameters ps2] [] =
    [("decorators", Expr.arr [d1, d2]), ("parameters", Expr.obj (ps1 ++ ps2))]
    from by
      rw [chainExtra, hdecs, hparams]
      rw [if_pos (show 0 < ([d1, d2] : List Expr).length by simp),
        if_pos hps, if_neg (show ¬ 0 < ([] : List String).length by simp)]
      rfl]
  rw [hdata]
  rfl

/-- C4 (witness): two concrete decorators and two concrete parameter objects
come out in source order. -/
theorem c4_metadata_order_witness :
    (exprCalls (Expr.raw 0 []) = [] ∧
      0 < (([("a", Expr.str "1")] ++ [("b", Expr.str "2")]).length)) ∧
    convertToModuleExports
      (mkChain "T"
        ([ChainStep.addDecorator (.raw 0 []), ChainStep.addDecorator (.raw 1 []),
          ChainStep.addParameters [("a", .str "1")],
          ChainStep.addParameters [("b", .str "2")]] ++
          [ChainStep.addStory "s" (.raw 2 []) none])) [] [] =
      some (Stmt.exportDefault (.obj
        [("title", .str "T"), ("decorators", .arr [.raw 0 [], .raw 1 []]),
         ("parameters", .obj ([("a", .str "1")] ++ [("b", .str "2")]))]) ::
        specStoryLoop [("s", .raw 2 [], none)] []) :=
  ⟨⟨rfl, by decide⟩,
    c4_metadata_order "T" (.raw 0 []) (.raw 1 []) [("a", .str "1")]
      [("b", .str "2")] "s" (.raw 2 []) none [] rfl rfl rfl rfl
      (by decide) (by decide)⟩

/-- C1 (counterexample): `twoChainModule` contains two independent chain
roots and no default export, and the transform emits the multi-chain
warning — but the returned source text differs from the original source, so
the module is not "returned unchanged" as the claim states. -/
theorem c1_multi_chain_counterexample :
    storiesOfCount twoChainModule = 2 ∧
    defaultExportCount twoChainModule = 0 ∧
    (storiesofTransformer twoChainModule).map Prod.snd =
      some [Warning.multipleChains 2] ∧
    (storiesofTransformer twoChainModule).map Prod.fst ≠
      some (renderModule twoChainModule) :=
  ⟨by decide, by decide, by decide, by decide⟩

/-- C1 (amended): for a module with more than one independent chain root
(both at statement-list splice positions) and no pre-existing default export,
the transform does not return the original source unchanged: the multi-chain
check runs only after every chain was already converted, so the run is the
monadic composition of the two in-place conversions — when both succeed the
rewritten, import-pruned module is returned together with the multi-chain
warning, and when either conversion throws the whole run aborts (`none` on
both sides). -/
theorem c1_multi_chain_rewrites (pre mid post : List Stmt) (s1 s2 : Stmt)
    (r1 r2 : Expr) (M : List Stmt)
    (hM : M = pre ++ s1 :: (mid ++ s2 :: post))
    (hpre : ∀ u ∈ pre, chainRootExpr u = none)
    (hmid : ∀ u ∈ mid, chainRootExpr u = none)
    (hpost : ∀ u ∈ post, chainRootExpr u = none)
    (hs1 : chainRootExpr s1 = some r1) (hs2 : chainRootExpr s2 = some r2)
    (hsp1 : spliceOk s1 = true) (hsp2 : spliceOk s2 = true)
    (hdef : defaultExportCount M = 0) (hcount : 1 < storiesOfCount M) :
    storiesofTransformerAst M =
      (convertToModuleExports r1 (identifiersOfModule M)
          (originalExportsOf M)).bind
        (fun c1 =>
          (convertToModuleExports r2
              (identifiersOfModule (pre ++ c1 ++ mid ++ s2 :: post))
              (originalExportsOf M)).map
            (fun c2 =>
              (pruneStoriesOfImports (pre ++ c1 ++ mid ++ c2 ++ post),
               [Warning.multipleChains (storiesOfCount M)]))) := by
  subst hM
  have h0 : ¬ 0 < defaultExportCount (pre ++ s1 :: (mid ++ s2 :: post)) := by
    rw [hdef]
    omega
  simp only [storiesofTransformerAst, h0, if_false]
  rw [convertLoop_skip _ pre [] (s1 :: (mid ++ s2 :: post)) hpre,
    List.nil_append]
  simp only [convertLoop, hs1]
  cases hc1 : convertToModuleExports r1
      (identifiersOfModule (pre ++ s1 :: (mid ++ s2 :: post)))
      (originalExportsOf (pre ++ s1 :: (mid ++ s2 :: post))) with
  | none => rfl
  | some c1 =>
      simp only [hsp1, if_true, Option.bind]
      rw [convertLoop_skip _ mid (pre ++ c1) (s2 :: post) hmid]
      simp only [convertLoop, hs2]
      cases hc2 : convertToModuleExports r2
          (identifiersOfModule (pre ++ c1 ++ mid ++ s2 :: post))
          (originalExportsOf (pre ++ s1 :: (mid ++ s2 :: post))) with
      | none => rfl
      | some c2 =>
          simp only [hsp2, if_true, Option.map]
          rw [convertLoop_free _ post _ hpost]
          simp [hcount]

/-- C1 (amended, witness): both chains of `twoChainModule` are rewritten and
the multi-chain warning is emitted. -/
theorem c1_multi_chain_rewrites_witness :
    (chainRootExpr (Stmt.exprStmt chainExprA) = some chainExprA ∧
      defaultExportCount twoChainModule = 0 ∧ 1 < storiesOfCount twoChainModule) ∧
    storiesofTransformerAst twoChainModule =
      (convertToModuleExports chainExprA (identifiersOfModule twoChainModule)
          (originalExportsOf twoChainModule)).bind
        (fun c1 =>
          (convertToModuleExports chainExprB
              (identifiersOfModule
                ([Stmt.importDecl "@storybook/react" ["storiesOf"]] ++ c1 ++
                  [] ++ Stmt.exprStmt chainExprB :: []))
              (originalExportsOf twoChainModule)).map
            (fun c2 =>
              (pruneStoriesOfImports
                ([Stmt.importDecl "@storybook/react" ["storiesOf"]] ++ c1 ++
                  [] ++ c2 ++ []),
               [Warning.multipleChains (storiesOfCount twoChainModule)]))) :=
  ⟨⟨rfl, by decide, by decide⟩,
    c1_multi_chain_rewrites [Stmt.importDecl "@storybook/react" ["storiesOf"]]
      [] [] (Stmt.exprStmt chainExprA) (Stmt.exprStmt chainExprB)
      chainExprA chainExprB twoChainModule rfl
      (by
        intro u hu
        rcases List.mem_singleton.mp hu with rfl
        rfl)
      (by intro u hu; cases hu)
      (by intro u hu; cases hu)
      rfl rfl rfl rfl (by decide) (by decide)⟩

/-- C8 (counterexample): `splitChainModule` is rewritten successfully (no
warning), but the stray `const chain = storiesOf(` fragment that the
AST-level removal could not clean up is still present in the returned source:
the final textual pass matches only the binding name `stories`, not any
binding name as the claim states. -/
theorem c8_residue_counterexample :
    storiesOfCount splitChainModule = 1 ∧
    defaultExportCount splitChainModule = 0 ∧
    storiesofTransformer splitChainModule =
      some ("const chain = storiesOf('T', module)\nexport const a = «9»", []) ∧
    findPat "const chain = storiesOf(".toList
      "const chain = storiesOf('T', module)\nexport const a = «9»".toList ≠
      none :=
  ⟨by decide, by decide, by decide, by decide⟩

/-- C8 (amended): every successful (non-guarded) run passes the serialized
module through the final textual pass before returning, and that pass
truncates only the first line containing the literal fragment
`const stories = storiesOf(` — the fixed binding name `stories` — from the
match to the end of the line, leaving every line without that exact fragment
(including stray fragments with any other binding name) unchanged. -/
theorem c8_textual_pass (m : List Stmt) (a : List String) (t : String)
    (b : List String) (lines : List String)
    (hdef : defaultExportCount m = 0) (hcount : storiesOfCount m ≤ 1)
    (ha : ∀ l ∈ a, findPat residuePat.toList l.toList = none)
    (hlines : ∀ l ∈ lines, findPat residuePat.toList l.toList = none) :
    storiesofTransformer m =
      (convertLoop (originalExportsOf m) [] m).map
        (fun conv =>
          (prettify (String.intercalate "\n" (stripResidue
            ((pruneStoriesOfImports conv).map stmtText))), [])) ∧
    stripResidue (a ++ (residuePat ++ t) :: b) = a ++ "" :: b ∧
    stripResidue lines = lines := by
  refine ⟨?_, stripResidue_strikes a t b ha, stripResidue_no_match lines hlines⟩
  have hne : ¬ 1 < storiesOfCount m := by omega
  have hne' : ¬ 0 < defaultExportCount m := by omega
  simp only [storiesofTransformer, hne', if_false]
  cases h : convertLoop (originalExportsOf m) [] m with
  | none => rfl
  | some conv => simp [hne]

/-- C8 (amended, witness): at `splitStoriesModule` the pass strips the
`const stories = storiesOf(` line; a line without the fragment survives. -/
theorem c8_textual_pass_witness :
    (defaultExportCount splitStoriesModule = 0 ∧
      storiesOfCount splitStoriesModule ≤ 1 ∧
      (∀ l ∈ (["export const a = «9»"] : List String),
        findPat residuePat.toList l.toList = none)) ∧
    stripResidue ([] ++ (residuePat ++ "'T', module)") ::
        ["export const a = «9»"]) = [] ++ "" :: ["export const a = «9»"] ∧
    storiesofTransformer splitStoriesModule =
      some ("\nexport const a = «9»", []) :=
  ⟨⟨by decide, by decide, by decide⟩,
    (c8_textual_pass splitStoriesModule [] "'T', module)"
      ["export const a = «9»"] ["export const a = «9»"]
      (by decide) (by decide) (by intro l hl; cases hl) (by decide)).2.1,
    by decide⟩

/-- C9: applying the transform to its own successful single-chain output
produces no further changes: whatever module `X` a successful first run
returns contains no `storiesOf` chain root for the transform to match (and
carries the generated default export), so a second application returns `X`
unchanged with no warnings. -/
theorem c9_idempotent (pre post : List Stmt) (title : String)
    (init : List ChainStep) (n : String) (r : Expr) (x : Option Expr)
    (M : List Stmt)
    (hM : M = pre ++
      Stmt.exprStmt (mkChain title (init ++ [.addStory n r x])) :: post)
    (hpre : ∀ u ∈ pre, chainRootExpr u = none)
    (hpost : ∀ u ∈ post, chainRootExpr u = none)
    (hinit : ∀ st ∈ init, stepCallFree st = true)
    (hlast : stepCallFree (ChainStep.addStory n r x) = true)
    (hdef : defaultExportCount M = 0)
    (hpreSoc : storiesOfCount pre = 0) (hpostSoc : storiesOfCount post = 0) :
    ∀ (X : List Stmt) (W : List Warning),
      storiesofTransformerAst M = some (X, W) →
      storiesOfCount X = 0 ∧
      0 < defaultExportCount X ∧
      storiesofTransformerAst X = some (X, []) := by
  subst hM
  have hall : ∀ st ∈ init ++ [ChainStep.addStory n r x], stepCallFree st = true := by
    intro st hst
    rcases List.mem_append.mp hst with h | h
    · exact hinit st h
    · rcases List.mem_singleton.mp h with rfl
      exact hlast
  have hcount : storiesOfCount (pre ++
      Stmt.exprStmt (mkChain title (init ++ [.addStory n r x])) :: post) = 1 := by
    have hsplit : pre ++
        Stmt.exprStmt (mkChain title (init ++ [.addStory n r x])) :: post =
        pre ++ [Stmt.exprStmt (mkChain title (init ++ [.addStory n r x]))] ++
          post := by simp
    rw [hsplit, storiesOfCount_append, storiesOfCount_append, hpreSoc, hpostSoc,
      storiesOfCount_chainStmt title _ hall]
  have hs := chainRootExpr_exprStmt_mkChain title init n r x
  have htr := transformAst_single_chain pre post _ _ _ hpre hpost hs rfl
    (convertToModuleExports_mkChain title init n r x _ _ hinit hlast) hdef hcount
  intro X W hX
  rw [htr] at hX
  simp only [Option.some.injEq, Prod.mk.injEq] at hX
  obtain ⟨rfl, rfl⟩ := hX
  have hstory : ∀ d ∈ storyDataOf init ++ [(n, r, x)],
      listCalls (addArgsFor d) = [] := by
    intro d hd
    rcases List.mem_append.mp hd with h | h
    · exact addArgs_nil_of_storyData init hinit d h
    · rcases List.mem_singleton.mp h with rfl
      have := (stepCallFree_iff _).mp hlast
      simpa [stepArgs] using this
  have hconvCalls : moduleCalls
      (Stmt.exportDefault (.obj (("title", .str title) ::
          chainExtra init (originalExportsOf (pre ++
            Stmt.exprStmt (mkChain title (init ++ [.addStory n r x])) ::
              post)))) ::
        specStoryLoop (storyDataOf init ++ [(n, r, x)])
          (identifiersOfModule (pre ++
            Stmt.exprStmt (mkChain title (init ++ [.addStory n r x])) ::
              post))) = [] := by
    rw [moduleCalls_cons, stmtCalls_exportDefault_chainExtra _ _ _ hinit,
      moduleCalls_specStoryLoop _ _ hstory]
    rfl
  have hsoc0 : storiesOfCount
      (pruneStoriesOfImports (pre ++
        (Stmt.exportDefault (.obj (("title", .str title) ::
            chainExtra init (originalExportsOf (pre ++
              Stmt.exprStmt (mkChain title (init ++ [.addStory n r x])) ::
                post)))) ::
          specStoryLoop (storyDataOf init ++ [(n, r, x)])
            (identifiersOfModule (pre ++
              Stmt.exprStmt (mkChain title (init ++ [.addStory n r x])) ::
                post))) ++ post)) = 0 := by
    rw [storiesOfCount_pruneStoriesOfImports, storiesOfCount_append,
      storiesOfCount_append, hpreSoc, hpostSoc]
    rw [show storiesOfCount
        (Stmt.exportDefault (.obj (("title", .str title) ::
            chainExtra init (originalExportsOf (pre ++
              Stmt.exprStmt (mkChain title (init ++ [.addStory n r x])) ::
                post)))) ::
          specStoryLoop (storyDataOf init ++ [(n, r, x)])
            (identifiersOfModule (pre ++
              Stmt.exprStmt (mkChain title (init ++ [.addStory n r x])) ::
                post))) = 0 from by
      rw [storiesOfCount, hconvCalls]
      rfl]
  have hdef1 : 0 < defaultExportCount
      (pruneStoriesOfImports (pre ++
        (Stmt.exportDefault (.obj (("title", .str title) ::
            chainExtra init (originalExportsOf (pre ++
              Stmt.exprStmt (mkChain title (init ++ [.addStory n r x])) ::
                post)))) ::
          specStoryLoop (storyDataOf init ++ [(n, r, x)])
            (identifiersOfModule (pre ++
              Stmt.exprStmt (mkChain title (init ++ [.addStory n r x])) ::
                post))) ++ post)) := by
    rw [defaultExportCount_pruneStoriesOfImports, defaultExportCount_append,
      defaultExportCount_append]
    have : 0 < defaultExportCount
        (Stmt.exportDefault (.obj (("title", .str title) ::
            chainExtra init (originalExportsOf (pre ++
              Stmt.exprStmt (mkChain title (init ++ [.addStory n r x])) ::
                post)))) ::
          specStoryLoop (storyDataOf init ++ [(n, r, x)])
            (identifiersOfModule (pre ++
              Stmt.exprStmt (mkChain title (init ++ [.addStory n r x])) ::
                post))) := by
      simp [defaultExportCount, List.filter_cons, isDefaultExport]
    omega
  refine ⟨hsoc0, hdef1, ?_⟩
  have hz : ¬ 0 < (0 : Nat) := by omega
  simp only [storiesofTransformerAst, hdef1, if_true, hsoc0, hz, if_false]

/-- C9 (witness): the second application of the transform to the rewritten
three-story module returns it unchanged with no warnings. -/
theorem c9_idempotent_witness :
    (storiesOfCount [Stmt.importDecl "@storybook/react" ["storiesOf"]] = 0 ∧
      defaultExportCount threeStoryModule = 0) ∧
    storiesofTransformerAst
        [Stmt.exportDefault (.obj [("title", .str "T")]),
         Stmt.exportNamedConst "a" (.raw 0 []),
         Stmt.exportNamedConst "b" (.raw 1 []),
         Stmt.exportNamedConst "c" (.raw 2 [])] =
      some ([Stmt.exportDefault (.obj [("title", .str "T")]),
         Stmt.exportNamedConst "a" (.raw 0 []),
         Stmt.exportNamedConst "b" (.raw 1 []),
         Stmt.exportNamedConst "c" (.raw 2 [])], []) :=
  ⟨⟨by decide, by decide⟩,
    (c9_idempotent [Stmt.importDecl "@storybook/react" ["storiesOf"]] [] "T"
      threeStoryInit "c" (.raw 2 []) none threeStoryModule rfl
      (by
        intro u hu
        rcases List.mem_singleton.mp hu with rfl
        rfl)
      (by intro u hu; cases hu)
      (by decide) (by decide) (by decide) (by decide) (by decide)
      [Stmt.exportDefault (.obj [("title", .str "T")]),
       Stmt.exportNamedConst "a" (.raw 0 []),
       Stmt.exportNamedConst "b" (.raw 1 []),
       Stmt.exportNamedConst "c" (.raw 2 [])] [] rfl).2.2⟩

end Vitro
